import Mathlib

/-!
Verification of the KBook task-orchestration core.

This file gives a shallow embedding of the state and operations of the
KBook application (src/App.tsx, src/services/geminiService.ts,
src/types.ts) and proves properties of the outline flattener, the
streaming accumulator, the sequential task driver, and the workflow
stage controller.

Conventions of the embedding:
* JavaScript strings are Lean `String`s; `Date.now()` is an arbitrary
  per-iteration natural-number parameter `nows : Nat → Nat`.
* The React `useState` cells of the `App` component form one record
  `AppState`; each handler is a state-transition function.
* A streaming generation call is represented by the finite list of
  chunks it delivers (each chunk's `text` field is an `Option String`,
  `none` when the field is not a string) together with whether the
  stream ended normally or raised, and if it raised, the error message.
-/

namespace KBook

/-- The set of characters matched by the JavaScript regular-expression
class `\s` (used by `String.prototype.trim` and by `\s+` in the key
sanitizer): ASCII whitespace, NBSP, the Unicode space separators, line
and paragraph separators, and the BOM. -/
def isJsWhitespace (c : Char) : Bool :=
  c = ' ' || c = '\t' || c = '\n' || c = '\r' || c = '\x0b' || c = '\x0c' ||
  c = ' ' || c = ' ' || (' ' ≤ c && c ≤ ' ') ||
  c = ' ' || c = ' ' || c = ' ' || c = ' ' ||
  c = '　' || c = '﻿'

/-- Characters matched by the JavaScript regular-expression class `\w`. -/
def isWordChar (c : Char) : Bool := c.isAlphanum || c = '_'

/-- Characters kept by the id sanitizer's second replace, i.e. the class
`[a-zA-Z0-9-]` (the complement of `[^a-zA-Z0-9-]`). -/
def isIdChar (c : Char) : Bool := c.isAlpha || c.isDigit || c = '-'

/-- The backtick character (code point 96), written via `Char.ofNat`. -/
def backtickChar : Char := Char.ofNat 96

/-- List-of-characters form of JavaScript `String.prototype.trim`:
drop `\s` characters from both ends. -/
def jsTrimList (l : List Char) : List Char :=
  ((l.dropWhile isJsWhitespace).reverse.dropWhile isJsWhitespace).reverse

/-- Model of JavaScript `String.prototype.trim`. -/
def jsTrim (s : String) : String := ⟨jsTrimList s.data⟩

/-- Decimal digit characters of `n`, most significant first; models the
JavaScript number-to-string conversion in a template literal for a
non-negative integer (`natDigits 0 = ['0']`). -/
def natDigits (n : Nat) : List Char :=
  if n < 10 then [Nat.digitChar n]
  else natDigits (n / 10) ++ [Nat.digitChar (n % 10)]
termination_by n
decreasing_by exact Nat.div_lt_self (by omega) (by omega)

/-- Decimal string of a natural number, as `${n}` renders it. -/
def natToString (n : Nat) : String := ⟨natDigits n⟩

/-- Dropping a prefix never lengthens a list (termination helper for
the whitespace collapser). -/
theorem length_dropWhile_le (p : Char → Bool) (l : List Char) :
    (l.dropWhile p).length ≤ l.length := by
  induction l with
  | nil => simp [List.dropWhile]
  | cons c cs ih =>
    by_cases h : p c
    · simp only [List.dropWhile, h]
      exact Nat.le_trans ih (by simp)
    · simp only [List.dropWhile, h]
      simp

/-- One step of `key.replace(/\s+/g, '-')`: each maximal run of `\s`
characters becomes a single `'-'`. -/
def collapseWhitespaceRuns : List Char → List Char
  | [] => []
  | c :: cs =>
    if isJsWhitespace c then '-' :: collapseWhitespaceRuns (cs.dropWhile isJsWhitespace)
    else c :: collapseWhitespaceRuns cs
termination_by l => l.length
decreasing_by
  · exact Nat.lt_succ_of_le (length_dropWhile_le isJsWhitespace cs)
  · exact Nat.lt_succ_self _

/-- Model of `key.replace(/\s+/g, '-').replace(/[^a-zA-Z0-9-]/g, '')`
from `flattenStructureToTasks`. -/
def sanitizeKey (k : String) : String :=
  ⟨(collapseWhitespaceRuns k.data).filter isIdChar⟩

/-- Lifecycle states of a chapter task (types.ts, `ChapterTask.status`). -/
inductive TaskStatus where
  | pending
  | generating
  | done
  | error
deriving DecidableEq, Repr

/-- The `ChapterTask` record of types.ts. The optional `content` field is
modelled as a `String` (the code always initializes it to `''`), and the
optional `errorMessage` as an `Option String`. -/
structure ChapterTask where
  id : String
  title : String
  description : String
  path : List String
  status : TaskStatus
  content : String
  errorMessage : Option String
deriving DecidableEq, Repr

/-- A top-level outline value: `string | Record<string, string>`
(types.ts, `BookStructure`). -/
inductive OutlineValue where
  | leaf (s : String)
  | node (entries : List (String × String))
deriving DecidableEq, Repr

/-- The `BookStructure` of types.ts: an ordered record whose values are
leaves or one-level nodes. JavaScript object iteration order is the
list order. -/
abbrev BookStructure := List (String × OutlineValue)

/-- Escape of one character inside a JSON string literal, exactly as
`JSON.stringify` produces it (QuoteJSONString): the two-character
escapes for quote, backslash, backspace, form feed, newline, carriage
return and tab, a `\u00XX` escape for the other control characters, and
the character itself otherwise. -/
def escapeChar (c : Char) : List Char :=
  if c = '"' then ['\\', '"']
  else if c = '\\' then ['\\', '\\']
  else if c = '\x08' then ['\\', 'b']
  else if c = '\x0c' then ['\\', 'f']
  else if c = '\n' then ['\\', 'n']
  else if c = '\r' then ['\\', 'r']
  else if c = '\t' then ['\\', 't']
  else if c.toNat < 32 then
    ['\\', 'u', '0', '0', Nat.digitChar (c.toNat / 16), Nat.digitChar (c.toNat % 16)]
  else [c]

/-- Escaped body of a JSON string literal. -/
def escapeString (s : String) : List Char := (s.data.map escapeChar).flatten

/-- A JSON string literal: quote, escaped body, quote. -/
def quoteJsonString (s : String) : String := ⟨'"' :: (escapeString s ++ ['"'])⟩

/-- One line of `JSON.stringify(record, null, 2)` for an entry of a
`Record<string, string>` appearing at the top level. -/
def entryLine (e : String × String) : String :=
  "  " ++ quoteJsonString e.1 ++ ": " ++ quoteJsonString e.2

/-- Model of `JSON.stringify(value, null, 2)` for a
`Record<string, string>` value, as used for a nested outline section in
`flattenStructureToTasks`. -/
def jsonStringifyRecord (entries : List (String × String)) : String :=
  match entries with
  | [] => "\x7b\x7d"
  | _ => "\x7b\n" ++ String.intercalate ",\n" (entries.map entryLine) ++ "\n\x7d"

/-- One line of the serialization of a nested node when it appears one
level deep inside the whole structure (indent 4, closing brace at 2). -/
def entryLineInner (e : String × String) : String :=
  "    " ++ quoteJsonString e.1 ++ ": " ++ quoteJsonString e.2

/-- Serialization of a nested node one level deep. -/
def jsonStringifyNodeInner (entries : List (String × String)) : String :=
  match entries with
  | [] => "\x7b\x7d"
  | _ => "\x7b\n" ++ String.intercalate ",\n" (entries.map entryLineInner) ++ "\n  \x7d"

/-- One line of `JSON.stringify(bookStructure, null, 2)`. -/
def structureEntryLine (e : String × OutlineValue) : String :=
  "  " ++ quoteJsonString e.1 ++ ": " ++
    (match e.2 with
     | .leaf s => quoteJsonString s
     | .node o => jsonStringifyNodeInner o)

/-- Model of `JSON.stringify(bookStructure, null, 2)` for the whole
outline, used as `fullBookStructureJson`. -/
def jsonStringifyStructure (st : BookStructure) : String :=
  match st with
  | [] => "\x7b\x7d"
  | _ => "\x7b\n" ++ String.intercalate ",\n" (st.map structureEntryLine) ++ "\n\x7d"

/-- The id built at flattening time:
`${sanitizedKey || 'chapter'}-${Date.now()}-${order}`. -/
def chapterIdOf (key : String) (now order : Nat) : String :=
  (if sanitizeKey key = "" then "chapter" else sanitizeKey key) ++ "-" ++
    natToString now ++ "-" ++ natToString order

/-- The `description` stored on a task: the value itself for a leaf
string, `JSON.stringify(value, null, 2)` for a nested node
(`chapterOutlineJson` in App.tsx). -/
def outlineFragmentOf : OutlineValue → String
  | .leaf s => s
  | .node o => jsonStringifyRecord o

/-- The task pushed for one outline entry in `flattenStructureToTasks`. -/
def mkChapterTask (key : String) (v : OutlineValue) (now order : Nat) : ChapterTask :=
  { id := chapterIdOf key now order
    title := key
    description := outlineFragmentOf v
    path := [key]
    status := .pending
    content := ""
    errorMessage := none }

/-- The loop of `flattenStructureToTasks`, carrying the `order` counter.
`nows order` is the value `Date.now()` returns at iteration `order`. -/
def flattenGo (nows : Nat → Nat) (order : Nat) : List (String × OutlineValue) → List ChapterTask
  | [] => []
  | (k, v) :: rest => mkChapterTask k v (nows order) order :: flattenGo nows (order + 1) rest

/-- Model of `flattenStructureToTasks` (App.tsx lines 81-101). -/
def flattenStructureToTasks (st : BookStructure) (nows : Nat → Nat) : List ChapterTask :=
  flattenGo nows 0 st

/-- Workflow phases (types.ts, `AppStep`). -/
inductive AppStep where
  | USER_INPUT
  | GENERATING_OUTLINE
  | OUTLINE_REVIEW
  | GENERATING_CHAPTERS
  | VIEW_BOOK
deriving DecidableEq, Repr

/-- Model tier selector (types.ts, `GenerationMode`). -/
inductive GenerationMode where
  | normal
  | advanced
deriving DecidableEq, Repr

/-- The configuration collected at workflow start (types.ts,
`UserInputs`). -/
structure UserInputs where
  subject : String
  language : String
  additionalInfo : String
  generationMode : GenerationMode
  contentLength : Nat
  readingLevel : Nat
  numberOfChapters : Nat
deriving DecidableEq, Repr

/-- The `useState` cells of the `App` component, gathered into one
record, together with the mutable `generatingChapterContentRef`. -/
structure AppState where
  currentStep : AppStep
  userInputs : Option UserInputs
  bookTitle : Option String
  bookStructure : Option BookStructure
  chapterTasks : List ChapterTask
  error : Option String
  isLoading : Bool
  isAutoGeneratingChapters : Bool
  activelyGeneratingChapterId : Option String
  apiKeyMissing : Bool
  generatingRef : String
deriving DecidableEq

/-- The `setChapterTasks(prev => prev.map(t => t.id === taskId ? ... : t))`
pattern used by every task mutation in App.tsx. -/
def updateTask (tasks : List ChapterTask) (taskId : String)
    (f : ChapterTask → ChapterTask) : List ChapterTask :=
  tasks.map fun t => if t.id = taskId then f t else t

/-- Entry into a generation call (App.tsx lines 130-132): record the
active id, move the task to `generating` with cleared error and content,
and reset the fragment buffer. -/
def markGenerating (s : AppState) (taskId : String) : AppState :=
  { s with
    activelyGeneratingChapterId := some taskId
    chapterTasks := updateTask s.chapterTasks taskId fun t =>
      { t with status := .generating, errorMessage := none, content := "" }
    generatingRef := "" }

/-- Receipt of one stream chunk (App.tsx lines 152-158): when the
chunk's `text` is a string, append it to the buffer and publish the
buffer as the task's live content; otherwise do nothing. -/
def applyChunk (s : AppState) (taskId : String) (chunk : Option String) : AppState :=
  match chunk with
  | some textChunk =>
    { s with
      generatingRef := s.generatingRef ++ textChunk
      chapterTasks := updateTask s.chapterTasks taskId fun t =>
        { t with content := s.generatingRef ++ textChunk } }
  | none => s

/-- Normal stream exhaustion (App.tsx lines 159-161): commit the trimmed
buffer and mark the task `done`. -/
def commitDone (s : AppState) (taskId : String) : AppState :=
  { s with
    chapterTasks := updateTask s.chapterTasks taskId fun t =>
      { t with status := .done, content := jsTrim s.generatingRef } }

/-- Mid-stream failure (App.tsx lines 162-168): mark the task `error`,
keep the trimmed partial buffer as its content, surface a workflow-level
error message (built from the task list captured at call entry), and
disable auto-run. -/
def commitError (s : AppState) (taskId : String) (errorMessage : String)
    (tasksAtCall : List ChapterTask) : AppState :=
  { s with
    chapterTasks := updateTask s.chapterTasks taskId fun t =>
      { t with status := .error, errorMessage := some errorMessage,
               content := jsTrim s.generatingRef }
    error := some ("Error in chapter: " ++
      (match tasksAtCall.find? (fun t => t.id == taskId) with
       | some t => t.title
       | none => "Unknown") ++ ". " ++ errorMessage)
    isAutoGeneratingChapters := false }

/-- The observable behaviour of one generation stream: the chunks it
delivers, and whether it ends normally or raises with a message. -/
inductive StreamOutcome where
  | success (chunks : List (Option String))
  | failure (chunks : List (Option String)) (msg : String)
deriving DecidableEq, Repr

/-- Chunks delivered before the stream ends or raises. -/
def StreamOutcome.chunks : StreamOutcome → List (Option String)
  | .success cs => cs
  | .failure cs _ => cs

/-- The block contributed by one previously completed chapter to the
`previouslyGeneratedContent` prompt input (App.tsx line 139). -/
def chapterBlock (t : ChapterTask) : String :=
  "Chapter: " ++ t.title ++ "\n" ++ t.content ++ "\n\n---END OF PREVIOUS CHAPTER---\n\n"

/-- App.tsx lines 136-140: the tasks before `taskIndex` that are `done`
with truthy (non-empty) content, mapped to their blocks and joined. -/
def previouslyGeneratedContent (tasks : List ChapterTask) (taskIndex : Nat) : String :=
  String.join (((tasks.take taskIndex).filter
    (fun t => t.status == .done && t.content != "")).map chapterBlock)

/-- The arguments handed to `generateChapterContentStream`
(geminiService.ts), as assembled at App.tsx lines 135-150. -/
structure ChapterRequest where
  inputs : UserInputs
  chapterTitle : String
  chapterOutlineJson : String
  fullBookStructureJson : String
  previouslyGeneratedChaptersContent : String
deriving DecidableEq, Repr

/-- Assembly of the generation request for the task at `taskIndex`. -/
def buildChapterRequest (inputs : UserInputs) (bs : BookStructure)
    (tasks : List ChapterTask) (taskIndex : Nat) (taskToGenerate : ChapterTask) :
    ChapterRequest :=
  { inputs := inputs
    chapterTitle := taskToGenerate.title
    chapterOutlineJson := taskToGenerate.description
    fullBookStructureJson := jsonStringifyStructure bs
    previouslyGeneratedChaptersContent := previouslyGeneratedContent tasks taskIndex }

/-- Model of `handleGenerateChapterContent` (App.tsx lines 124-173) run
to completion on a stream with outcome `outcome`. Returns the new state
and the request sent to the model client (`none` when the call was a
no-op and no stream was opened). -/
def handleGenerateChapterContent (s : AppState) (taskId : String)
    (outcome : StreamOutcome) : AppState × Option ChapterRequest :=
  match s.userInputs, s.bookStructure with
  | some inputs, some bs =>
    if !s.isAutoGeneratingChapters || s.apiKeyMissing then (s, none)
    else
      match s.chapterTasks.findIdx? (fun t => t.id == taskId) with
      | none => (s, none)
      | some taskIndex =>
        match s.chapterTasks[taskIndex]? with
        | none => (s, none)
        | some taskToGenerate =>
          if taskToGenerate.status ≠ .pending then (s, none)
          else
            let req := buildChapterRequest inputs bs s.chapterTasks taskIndex taskToGenerate
            let s1 := markGenerating s taskId
            let s2 := outcome.chunks.foldl (fun st c => applyChunk st taskId c) s1
            let s3 :=
              match outcome with
              | .success _ => commitDone s2 taskId
              | .failure _ msg => commitError s2 taskId msg s.chapterTasks
            ({ s3 with activelyGeneratingChapterId := none, generatingRef := "" }, some req)
  | _, _ => (s, none)

/-- JavaScript truthiness of the `activelyGeneratingChapterId` cell:
`!id` holds for `null` and for the empty string. -/
def jsFalsyId : Option String → Bool
  | none => true
  | some id => id == ""

/-- Model of the auto-advance effect (App.tsx lines 175-184): when in the
chapter phase with auto-run enabled, no active generation and a
configured key, start the first `pending` task, or disable auto-run if
none remains. -/
def autoAdvanceStep (s : AppState) (outcome : StreamOutcome) :
    AppState × Option ChapterRequest :=
  if s.currentStep == .GENERATING_CHAPTERS && s.isAutoGeneratingChapters &&
      jsFalsyId s.activelyGeneratingChapterId && !s.apiKeyMissing then
    match s.chapterTasks.find? (fun t => t.status == .pending) with
    | some nextTask => handleGenerateChapterContent s nextTask.id outcome
    | none => ({ s with isAutoGeneratingChapters := false }, none)
  else (s, none)

/-- Model of `handleProceedToChapterGeneration` (App.tsx lines 111-117). -/
def handleProceedToChapterGeneration (s : AppState) (nows : Nat → Nat) : AppState :=
  match s.bookStructure with
  | some bs =>
    { s with
      chapterTasks := flattenStructureToTasks bs nows
      currentStep := .GENERATING_CHAPTERS
      error := none }
  | none => s

/-- Model of the re-flatten effect (App.tsx lines 103-109). -/
def reflattenEffect (s : AppState) (nows : Nat → Nat) : AppState :=
  match s.bookStructure with
  | some bs =>
    if s.currentStep == .OUTLINE_REVIEW || s.currentStep == .GENERATING_CHAPTERS then
      if s.chapterTasks.isEmpty ||
          (s.currentStep == .OUTLINE_REVIEW &&
            s.chapterTasks.all (fun t => t.status == .pending)) then
        { s with chapterTasks := flattenStructureToTasks bs nows }
      else s
    else s
  | none => s

/-- Model of `startAutomaticChapterGeneration` (App.tsx lines 119-122). -/
def startAutomaticChapterGeneration (s : AppState) : AppState :=
  { s with isAutoGeneratingChapters := true, error := none }

/-- The back-navigation from the chapter phase (App.tsx line 212):
`onGoBack={() => setCurrentStep(AppStep.OUTLINE_REVIEW)}`. -/
def goBackToOutlineReview (s : AppState) : AppState :=
  { s with currentStep := .OUTLINE_REVIEW }

/-- Number of tasks currently in `generating`. -/
def countGenerating (tasks : List ChapterTask) : Nat :=
  tasks.countP (fun t => t.status == .generating)

/-- Every instant of one `handleGenerateChapterContent` call: the entry
state, the state after the synchronous marking, the state after each
received chunk, and the final state. -/
def callStates (s : AppState) (taskId : String) (outcome : StreamOutcome) :
    List AppState :=
  match s.userInputs, s.bookStructure with
  | some _, some _ =>
    if !s.isAutoGeneratingChapters || s.apiKeyMissing then [s]
    else
      match s.chapterTasks.findIdx? (fun t => t.id == taskId) with
      | none => [s]
      | some taskIndex =>
        match s.chapterTasks[taskIndex]? with
        | none => [s]
        | some taskToGenerate =>
          if taskToGenerate.status ≠ .pending then [s]
          else
            let s1 := markGenerating s taskId
            let s2 := outcome.chunks.foldl (fun st c => applyChunk st taskId c) s1
            let s3 :=
              match outcome with
              | .success _ => commitDone s2 taskId
              | .failure _ msg => commitError s2 taskId msg s.chapterTasks
            s :: (outcome.chunks.scanl (fun st c => applyChunk st taskId c) s1 ++
              [{ s3 with activelyGeneratingChapterId := none, generatingRef := "" }])
  | _, _ => [s]

/-- Every instant of one driver step (the auto-advance effect plus the
call it starts, if any). -/
def stepStates (s : AppState) (outcome : StreamOutcome) : List AppState :=
  if s.currentStep == .GENERATING_CHAPTERS && s.isAutoGeneratingChapters &&
      jsFalsyId s.activelyGeneratingChapterId && !s.apiKeyMissing then
    match s.chapterTasks.find? (fun t => t.status == .pending) with
    | some nextTask => callStates s nextTask.id outcome
    | none => [{ s with isAutoGeneratingChapters := false }]
  else [s]

/-- Every instant of a driver run consuming a list of stream outcomes. -/
def runStates (s : AppState) : List StreamOutcome → List AppState
  | [] => [s]
  | o :: os => stepStates s o ++ runStates (autoAdvanceStep s o).1 os

/-- The end state of a driver run. -/
def runDriver (s : AppState) : List StreamOutcome → AppState
  | [] => s
  | o :: os => runDriver (autoAdvanceStep s o).1 os

/-- The text fragments a chunk list delivers (chunks whose `text` field
is a string). -/
def deliveredFragments (chunks : List (Option String)) : List String :=
  chunks.filterMap id

/-- Concatenation of a list of strings, in order. -/
def concatStrings : List String → String
  | [] => ""
  | a :: l => a ++ concatStrings l

/-- Concatenation, in delivery order, of the delivered fragments. -/
def concatFragments (chunks : List (Option String)) : String :=
  concatStrings (chunks.filterMap id)

/-- The in-flight shape of a task: status `generating`, error cleared,
live content `r` (the shape produced when a call marks a task and then
streams fragments into it). -/
def genTask (t : ChapterTask) (r : String) : ChapterTask :=
  { t with status := .generating, errorMessage := none, content := r }

/-- The committed shape of a task after a successful stream. -/
def doneTask (t : ChapterTask) (c : String) : ChapterTask :=
  { t with status := .done, content := c }

/-- The shape of a task after a failed stream: `error`, with the message
and the preserved trimmed partial content. -/
def errorTask (t : ChapterTask) (msg c : String) : ChapterTask :=
  { t with status := .error, errorMessage := some msg, content := c }

/-- A concrete task for witness states. -/
def sampleTask (id title : String) (st : TaskStatus) (content : String) : ChapterTask :=
  { id := id, title := title, description := "d", path := [title], status := st,
    content := content, errorMessage := none }

/-- A concrete configuration for witness states. -/
def sampleInputs : UserInputs :=
  { subject := "S", language := "en", additionalInfo := "", generationMode := .normal,
    contentLength := 100, readingLevel := 5, numberOfChapters := 12 }

/-- A concrete application state in the chapter phase for witness
states. -/
def sampleState (tasks : List ChapterTask) (auto : Bool) : AppState :=
  { currentStep := .GENERATING_CHAPTERS, userInputs := some sampleInputs,
    bookTitle := some "T", bookStructure := some [("Ch1", .leaf "d")],
    chapterTasks := tasks, error := none, isLoading := false,
    isAutoGeneratingChapters := auto, activelyGeneratingChapterId := none,
    apiKeyMissing := false, generatingRef := "" }

/-- Numeric value of a decimal digit character. -/
def digitVal (c : Char) : Nat := c.toNat - 48

/-- Value of a most-significant-first decimal digit list. -/
def valDigits (l : List Char) : Nat := l.foldl (fun a c => 10 * a + digitVal c) 0

/-- The part of `l` after its last `'-'` (all of `l` when it has none). -/
def lastDashComponent (l : List Char) : List Char :=
  (l.reverse.takeWhile (fun c => c != '-')).reverse

/-- Does `l` consist of whitespace followed by exactly the three closing
backticks at the very end? This is the language of the regex tail
`\n?\s*` + three backticks + `$` (the optional newline is itself `\s`). -/
def fenceTailOk (l : List Char) : Bool :=
  l.dropWhile isJsWhitespace == [backtickChar, backtickChar, backtickChar]

/-- The lazy group `(.*?)` of the fence regex: the shortest prefix whose
complement is a valid fence tail. -/
def fenceLazySplit : List Char → Option (List Char)
  | [] => if fenceTailOk [] then some [] else none
  | c :: cs =>
    if fenceTailOk (c :: cs) then some []
    else (fenceLazySplit cs).map (c :: ·)

/-- Capture group 2 of the fence regex of `parseJsonFromText`,
`/^...(\w*)?\s*\n?(.*?)\n?\s*...$/s` with three backticks at each end,
when the regex matches the whole input; `none` when it does not match.
After the opening backticks the optional language word and the following
whitespace are consumed greedily (the `\n?` after the greedy `\s*` can
only match empty), and the lazy middle group extends to the earliest
point from which the remainder is whitespace followed by the three
closing backticks at the end of input. Backtracking the greedy parts
cannot turn a failed match into a success, because matching only
requires the remainder to end in three backticks, which no backtrack
changes. -/
def fenceCapture (l : List Char) : Option (List Char) :=
  match l with
  | c1 :: c2 :: c3 :: rest =>
    if c1 = backtickChar ∧ c2 = backtickChar ∧ c3 = backtickChar then
      fenceLazySplit ((rest.dropWhile isWordChar).dropWhile isJsWhitespace)
    else none
  | _ => none

/-- A JSON value as `JSON.parse` produces it. Numbers are kept as the
literal's text rather than as floating point (floating-point semantics
are out of scope for these claims); object entries keep source order. -/
inductive Json where
  | null
  | bool (b : Bool)
  | num (lexeme : String)
  | str (s : String)
  | arr (elems : List Json)
  | obj (entries : List (String × Json))

/-- JSON-grammar whitespace (exactly space, tab, line feed, carriage
return; narrower than the JavaScript `\s`). -/
def isJsonWs (c : Char) : Bool := c = ' ' || c = '\t' || c = '\n' || c = '\r'

/-- Skip JSON whitespace. -/
def skipWs (l : List Char) : List Char := l.dropWhile isJsonWs

/-- Value of one hexadecimal digit character. -/
def hexVal (c : Char) : Option Nat :=
  if '0' ≤ c ∧ c ≤ '9' then some (c.toNat - 48)
  else if 'a' ≤ c ∧ c ≤ 'f' then some (c.toNat - 87)
  else if 'A' ≤ c ∧ c ≤ 'F' then some (c.toNat - 55)
  else none

/-- The single-character JSON escapes: `\X` decodes to `unescapeChar X`
for the eight simple escapes. -/
def unescapeChar (e : Char) : Option Char :=
  if e = '"' then some '"'
  else if e = '\\' then some '\\'
  else if e = '/' then some '/'
  else if e = 'b' then some '\x08'
  else if e = 'f' then some '\x0c'
  else if e = 'n' then some '\n'
  else if e = 'r' then some '\r'
  else if e = 't' then some '\t'
  else none

/-- Body of a JSON string literal after the opening quote: decoded
characters plus the remainder after the closing quote. Unescaped
control characters are invalid; `\uXXXX` decodes through `Char.ofNat`
(surrogate-pair recombination is out of scope). -/
def parseStringBody (fuel : Nat) (l : List Char) : Option (List Char × List Char) :=
  match fuel with
  | 0 => none
  | fuel + 1 =>
    match l with
    | [] => none
    | c :: rest =>
      if c = '"' then some ([], rest)
      else if c = '\\' then
        match rest with
        | [] => none
        | e :: r =>
          if e = 'u' then
            match r with
            | h1 :: h2 :: h3 :: h4 :: r' =>
              match hexVal h1, hexVal h2, hexVal h3, hexVal h4 with
              | some a, some b, some c, some d =>
                (parseStringBody fuel r').map
                  (fun p => (Char.ofNat (((a * 16 + b) * 16 + c) * 16 + d) :: p.1, p.2))
              | _, _, _, _ => none
            | _ => none
          else
            match unescapeChar e with
            | some d => (parseStringBody fuel r).map (fun p => (d :: p.1, p.2))
            | none => none
      else if c.toNat < 32 then none
      else (parseStringBody fuel rest).map (fun p => (c :: p.1, p.2))

/-- Integer part of a JSON number: `0`, or a nonzero digit followed by
digits. -/
def parseIntPart (l : List Char) : Option (List Char × List Char) :=
  match l with
  | '0' :: r => some (['0'], r)
  | c :: r =>
    if c.isDigit then some (c :: r.takeWhile Char.isDigit, r.dropWhile Char.isDigit)
    else none
  | [] => none

/-- Optional fraction part of a JSON number. -/
def parseFracPart (l : List Char) : Option (List Char × List Char) :=
  match l with
  | '.' :: r =>
    if (r.takeWhile Char.isDigit).isEmpty then none
    else some ('.' :: r.takeWhile Char.isDigit, r.dropWhile Char.isDigit)
  | _ => some ([], l)

/-- Optional exponent part of a JSON number. -/
def parseExpPart (l : List Char) : Option (List Char × List Char) :=
  match l with
  | c :: r =>
    if c = 'e' ∨ c = 'E' then
      match r with
      | s :: r' =>
        if s = '+' ∨ s = '-' then
          if (r'.takeWhile Char.isDigit).isEmpty then none
          else some (c :: s :: r'.takeWhile Char.isDigit, r'.dropWhile Char.isDigit)
        else
          if (r.takeWhile Char.isDigit).isEmpty then none
          else some (c :: r.takeWhile Char.isDigit, r.dropWhile Char.isDigit)
      | [] => none
    else some ([], l)
  | [] => some ([], [])

/-- A JSON number literal: optional minus, integer part, optional
fraction, optional exponent. -/
def parseNumberLexeme (l : List Char) : Option (List Char × List Char) :=
  match (match l with | '-' :: r => ((['-'] : List Char), r) | _ => (([] : List Char), l)) with
  | (neg, l1) =>
    match parseIntPart l1 with
    | none => none
    | some (ip, r1) =>
      match parseFracPart r1 with
      | none => none
      | some (fp, r2) =>
        match parseExpPart r2 with
        | none => none
        | some (ep, r3) => some (neg ++ ip ++ fp ++ ep, r3)

mutual

/-- A JSON value with leading whitespace skipped. -/
def parseJsonValue : Nat → List Char → Option (Json × List Char)
  | 0, _ => none
  | fuel + 1, l =>
    match skipWs l with
    | 'n' :: 'u' :: 'l' :: 'l' :: r => some (.null, r)
    | 't' :: 'r' :: 'u' :: 'e' :: r => some (.bool true, r)
    | 'f' :: 'a' :: 'l' :: 's' :: 'e' :: r => some (.bool false, r)
    | '"' :: r => (parseStringBody (r.length + 1) r).map (fun p => (.str ⟨p.1⟩, p.2))
    | '[' :: r =>
      (match skipWs r with
       | ']' :: r' => some (.arr [], r')
       | _ => (parseJsonElems fuel r).map (fun p => (.arr p.1, p.2)))
    | '{' :: r =>
      (match skipWs r with
       | '}' :: r' => some (.obj [], r')
       | _ => (parseJsonMembers fuel r).map (fun p => (.obj p.1, p.2)))
    | l' => (parseNumberLexeme l').map (fun p => (.num ⟨p.1⟩, p.2))

/-- One or more comma-separated array elements up to the closing
bracket. -/
def parseJsonElems : Nat → List Char → Option (List Json × List Char)
  | 0, _ => none
  | fuel + 1, l =>
    match parseJsonValue fuel l with
    | none => none
    | some (v, r) =>
      match skipWs r with
      | ',' :: r' => (parseJsonElems fuel r').map (fun p => (v :: p.1, p.2))
      | ']' :: r' => some ([v], r')
      | _ => none

/-- One or more comma-separated object members up to the closing
brace. -/
def parseJsonMembers : Nat → List Char → Option (List (String × Json) × List Char)
  | 0, _ => none
  | fuel + 1, l =>
    match skipWs l with
    | '"' :: r =>
      match parseStringBody (r.length + 1) r with
      | none => none
      | some (k, r1) =>
        match skipWs r1 with
        | ':' :: r2 =>
          match parseJsonValue fuel r2 with
          | none => none
          | some (v, r3) =>
            match skipWs r3 with
            | ',' :: r4 => (parseJsonMembers fuel r4).map (fun p => ((⟨k⟩, v) :: p.1, p.2))
            | '}' :: r4 => some ([(⟨k⟩, v)], r4)
            | _ => none
        | _ => none
    | _ => none

end

/-- Model of the built-in `JSON.parse`: a single JSON value surrounded
only by JSON whitespace. Nesting depth is bounded by the input length,
so `length + 1` fuel never runs out on an input the grammar accepts. -/
def jsonParse (s : String) : Option Json :=
  match parseJsonValue (s.length + 1) s.data with
  | some (v, r) => if skipWs r = [] then some v else none
  | none => none

/-- Model of `parseJsonFromText` (geminiService.ts lines 22-35): trim,
strip a wrapping code fence when the regex matches with a non-empty
(truthy) capture, then parse as JSON; a parse failure raises the fixed
error message. No validation beyond JSON well-formedness is performed. -/
def parseJsonFromText (text : String) : Except String Json :=
  match fenceCapture (jsTrim text).data with
  | some g2 =>
    if g2 ≠ [] then
      match jsonParse (jsTrim ⟨g2⟩) with
      | some j => .ok j
      | none => .error "Invalid JSON response from AI. The AI returned content that was not valid JSON."
    else
      match jsonParse (jsTrim text) with
      | some j => .ok j
      | none => .error "Invalid JSON response from AI. The AI returned content that was not valid JSON."
  | none =>
    match jsonParse (jsTrim text) with
    | some j => .ok j
    | none => .error "Invalid JSON response from AI. The AI returned content that was not valid JSON."

/-- Is the string a single JSON string value? -/
def isStringJson : Json → Bool
  | .str _ => true
  | _ => false

/-- Does a parsed JSON value fit the declared `BookStructure` type
`Record<string, string | Record<string, string>>`? The source performs
no such check after parsing. -/
def isBookStructureJson : Json → Bool
  | .obj entries =>
    entries.all (fun e =>
      match e.2 with
      | .str _ => true
      | .obj inner => inner.all (fun i => isStringJson i.2)
      | _ => false)
  | _ => false

/-- Typed view of a parsed JSON value as a `BookStructure`; `none` when
the value does not fit the declared type. The source stores the parsed
value in the `bookStructure` cell without any structural check; this
decoder is the model's bridge from runtime JSON to the typed state. -/
def decodeBookStructure : Json → Option BookStructure
  | .obj entries =>
    entries.mapM (fun (e : String × Json) =>
      match e.2 with
      | .str s => some (e.1, OutlineValue.leaf s)
      | .obj inner =>
        (inner.mapM (fun (i : String × Json) =>
          match i.2 with
          | .str s => some (i.1, s)
          | _ => (none : Option (String × String)))).map
          (fun o => (e.1, OutlineValue.node o))
      | _ => none)
  | _ => none

/-- Model of `handleUserInputSubmit` (App.tsx lines 47-79).
`outlineStream` is the concatenation of the outline stream's fragments,
or the failure the stream raised; `titleOutcome` is the result of the
title call. The parsed JSON value is stored through
`decodeBookStructure` (see there). -/
def handleUserInputSubmit (s : AppState) (inputs : UserInputs)
    (outlineStream : Except String String) (titleOutcome : Except String String) :
    AppState :=
  if s.apiKeyMissing then
    { s with error := some "Application is not configured correctly. API Key is missing." }
  else
    let s0 := { s with
      userInputs := some inputs
      currentStep := .GENERATING_OUTLINE
      isLoading := true
      error := none
      bookStructure := none
      bookTitle := none
      chapterTasks := [] }
    match outlineStream with
    | .error msg => { s0 with error := some msg, currentStep := .USER_INPUT, isLoading := false }
    | .ok outlineText =>
      match parseJsonFromText outlineText with
      | .error msg => { s0 with error := some msg, currentStep := .USER_INPUT, isLoading := false }
      | .ok j =>
        match titleOutcome with
        | .error msg =>
          { s0 with bookStructure := decodeBookStructure j, error := some msg,
                    currentStep := .USER_INPUT, isLoading := false }
        | .ok title =>
          { s0 with bookStructure := decodeBookStructure j, bookTitle := some title,
                    currentStep := .OUTLINE_REVIEW, isLoading := false }

/-- Escaped body of a JSON string literal, in list form. -/
def escapeList (l : List Char) : List Char := (l.map escapeChar).flatten

/-- Reader for the `"key": "value"` lines of `jsonStringifyRecord`
output, at 2-space indentation, up to the closing brace at the end of
input. Together with `parseRecordObject` this is an explicit inverse of
the record serializer (the fragment of `JSON.parse` relevant to it),
witnessing that the serialization is lossless. -/
def parseRecordLines (fuel : Nat) (l : List Char) : Option (List (String × String)) :=
  match fuel with
  | 0 => none
  | fuel + 1 =>
    match l with
    | ' ' :: ' ' :: '"' :: r =>
      match parseStringBody (r.length + 1) r with
      | none => none
      | some (k, r1) =>
        match r1 with
        | ':' :: ' ' :: '"' :: r2 =>
          match parseStringBody (r2.length + 1) r2 with
          | none => none
          | some (v, r3) =>
            match r3 with
            | ',' :: '\n' :: r4 => (parseRecordLines fuel r4).map (fun es => (⟨k⟩, ⟨v⟩) :: es)
            | '\n' :: '}' :: [] => some [(⟨k⟩, ⟨v⟩)]
            | _ => none
        | _ => none
    | _ => none

/-- Deserializer for `jsonStringifyRecord` output. -/
def parseRecordObject (s : String) : Option (List (String × String)) :=
  match s.data with
  | c0 :: c :: r =>
    if c0 = '{' then
      if c = '}' then (if r = [] then some [] else none)
      else if c = '\n' then parseRecordLines (r.length + 1) r
      else none
    else none
  | _ => none

/-! ### Decimal digits and id uniqueness -/

/-- No decimal digit of a natural number is a dash. -/
theorem natDigits_not_dash {n : Nat} : ∀ c ∈ natDigits n, c ≠ '-' := by
  induction n using Nat.strong_induction_on with
  | _ n ih =>
    intro c hc
    rw [natDigits] at hc
    by_cases h : n < 10
    · simp only [if_pos h, List.mem_singleton] at hc
      subst hc
      have hall : ∀ m, m < 10 → Nat.digitChar m ≠ '-' := by decide
      exact hall n h
    · simp only [if_neg h, List.mem_append, List.mem_singleton] at hc
      rcases hc with hc | hc
      · exact ih (n / 10) (Nat.div_lt_self (by omega) (by omega)) c hc
      · subst hc
        have hall : ∀ m, m < 10 → Nat.digitChar m ≠ '-' := by decide
        exact hall (n % 10) (by omega)

/-- Reading the decimal digits back gives the number. -/
theorem valDigits_natDigits (n : Nat) : valDigits (natDigits n) = n := by
  induction n using Nat.strong_induction_on with
  | _ n ih =>
    rw [natDigits]
    by_cases h : n < 10
    · have hd : ∀ m, m < 10 → digitVal (Nat.digitChar m) = m := by decide
      simp only [if_pos h, valDigits, List.foldl_cons, List.foldl_nil]
      rw [hd n h]
      omega
    · simp only [if_neg h, valDigits, List.foldl_append, List.foldl_cons, List.foldl_nil]
      have hx := ih (n / 10) (Nat.div_lt_self (by omega) (by omega))
      rw [valDigits] at hx
      rw [hx]
      have hd : ∀ m, m < 10 → digitVal (Nat.digitChar m) = m := by decide
      rw [hd (n % 10) (by omega)]
      omega

/-- Decimal digit lists determine the number. -/
theorem natDigits_injective {m n : Nat} (h : natDigits m = natDigits n) : m = n := by
  have hv := congrArg valDigits h
  rwa [valDigits_natDigits, valDigits_natDigits] at hv

/-- A `takeWhile` that crosses a satisfying block and stops at the first
failing element. -/
theorem takeWhile_append_stop {p : Char → Bool} {xs : List Char}
    (h : ∀ c ∈ xs, p c = true) {y : Char} (hy : p y = false) (rest : List Char) :
    (xs ++ y :: rest).takeWhile p = xs := by
  induction xs with
  | nil => simp [List.takeWhile, hy]
  | cons c cs ih =>
    simp only [List.cons_append, List.takeWhile]
    rw [h c (by simp)]
    exact congrArg (c :: ·) (ih (fun c hc => h c (by simp [hc])))

/-- The last dash-separated component of `p ++ '-' :: l` is `l` when `l`
has no dash. -/
theorem lastDashComponent_append (p : List Char) {l : List Char}
    (hl : ∀ c ∈ l, c ≠ '-') : lastDashComponent (p ++ '-' :: l) = l := by
  unfold lastDashComponent
  have hrev : (p ++ '-' :: l).reverse = l.reverse ++ '-' :: p.reverse := by
    simp
  rw [hrev]
  rw [takeWhile_append_stop (fun c hc => by
      simp only [bne_iff_ne, ne_eq, decide_eq_true_eq]
      exact hl c (List.mem_reverse.mp hc)) (by simp) p.reverse]
  exact List.reverse_reverse _

/-- Data decomposition of a generated id: everything before the final
dash, then the decimal digits of the order counter. -/
theorem chapterIdOf_data (key : String) (now order : Nat) :
    (chapterIdOf key now order).data =
      (((if sanitizeKey key = "" then "chapter" else sanitizeKey key).data ++
        '-' :: natDigits now)) ++ '-' :: natDigits order := by
  unfold chapterIdOf
  simp [String.data_append, natToString]

/-- Ids generated with different order counters differ: the order is
recoverable as the digits after the last dash. -/
theorem chapterIdOf_order_eq {k k' : String} {n n' o o' : Nat}
    (h : chapterIdOf k n o = chapterIdOf k' n' o') : o = o' := by
  have hd := congrArg String.data h
  rw [chapterIdOf_data, chapterIdOf_data] at hd
  have h1 := congrArg lastDashComponent hd
  rw [lastDashComponent_append _ natDigits_not_dash,
      lastDashComponent_append _ natDigits_not_dash] at h1
  exact natDigits_injective h1

/-! ### Properties of the outline flattener -/

/-- Flattening yields one task per entry. -/
theorem flattenGo_length (nows : Nat → Nat) (o : Nat)
    (st : List (String × OutlineValue)) :
    (flattenGo nows o st).length = st.length := by
  induction st generalizing o with
  | nil => rfl
  | cons kv rest ih =>
    obtain ⟨k, v⟩ := kv
    simp [flattenGo, ih]

/-- The task at position `i` comes from the entry at position `i`, with
order counter `o + i`. -/
theorem flattenGo_getElem? (nows : Nat → Nat) (o i : Nat)
    (st : List (String × OutlineValue)) :
    (flattenGo nows o st)[i]? =
      st[i]?.map (fun kv => mkChapterTask kv.1 kv.2 (nows (o + i)) (o + i)) := by
  induction st generalizing o i with
  | nil => simp [flattenGo]
  | cons kv rest ih =>
    obtain ⟨k, v⟩ := kv
    cases i with
    | zero => simp [flattenGo]
    | succ j =>
      simp only [flattenGo, List.getElem?_cons_succ]
      rw [ih (o + 1) j]
      have harith : o + 1 + j = o + (j + 1) := by omega
      rw [harith]

/-- Every id produced by the flattening loop carries an order counter at
least the starting one. -/
theorem flattenGo_id_mem {nows : Nat → Nat} {o : Nat}
    {st : List (String × OutlineValue)} {t : ChapterTask}
    (ht : t ∈ flattenGo nows o st) :
    ∃ k now j, o ≤ j ∧ t.id = chapterIdOf k now j := by
  induction st generalizing o with
  | nil => simp [flattenGo] at ht
  | cons kv rest ih =>
    obtain ⟨k, v⟩ := kv
    simp only [flattenGo, List.mem_cons] at ht
    rcases ht with h | h
    · exact ⟨k, nows o, o, Nat.le_refl o, by rw [h]; rfl⟩
    · obtain ⟨k', now', j, hj, hid⟩ := ih h
      exact ⟨k', now', j, by omega, hid⟩

/-- The ids produced by one flattening pass are pairwise distinct. -/
theorem flattenGo_ids_nodup (nows : Nat → Nat) (o : Nat)
    (st : List (String × OutlineValue)) :
    ((flattenGo nows o st).map (fun t => t.id)).Nodup := by
  induction st generalizing o with
  | nil => simp [flattenGo]
  | cons kv rest ih =>
    obtain ⟨k, v⟩ := kv
    simp only [flattenGo, List.map_cons, List.nodup_cons]
    refine ⟨?_, ih (o + 1)⟩
    intro hmem
    simp only [List.mem_map] at hmem
    obtain ⟨t, ht, hid⟩ := hmem
    obtain ⟨k', now', j, hj, hid'⟩ := flattenGo_id_mem ht
    rw [hid'] at hid
    have : j = o := chapterIdOf_order_eq hid
    omega

/-- C2: flattening an outline with N top-level entries produces exactly
N tasks; the task at position i (0-indexed, in entry iteration order)
carries entry i's name as title, status `pending` and empty content; and
the ids generated in that flattening pass are pairwise distinct — even
when two entries have the same name and whatever values the clock
takes. -/
theorem flatten_yields_ordered_pending_tasks_with_distinct_ids
    (st : BookStructure) (nows : Nat → Nat) :
    (flattenStructureToTasks st nows).length = st.length ∧
    (∀ i kv, st[i]? = some kv →
      ∃ t, (flattenStructureToTasks st nows)[i]? = some t ∧
        t.title = kv.1 ∧ t.status = .pending ∧ t.content = "" ∧
        t.id = chapterIdOf kv.1 (nows i) i) ∧
    ((flattenStructureToTasks st nows).map (fun t => t.id)).Nodup := by
  refine ⟨flattenGo_length nows 0 st, ?_, flattenGo_ids_nodup nows 0 st⟩
  intro i kv hkv
  refine ⟨mkChapterTask kv.1 kv.2 (nows i) i, ?_, rfl, rfl, rfl, rfl⟩
  rw [flattenStructureToTasks, flattenGo_getElem?, hkv]
  simp

/-- Witness: the flattening theorem applied to a concrete outline with a
repeated entry name. -/
theorem flatten_yields_ordered_pending_tasks_with_distinct_ids_witness :
    (flattenStructureToTasks [("Intro", .leaf "a"), ("Intro", .leaf "b")]
      (fun _ => 7)).length = 2 ∧
    (∃ t, (flattenStructureToTasks [("Intro", .leaf "a"), ("Intro", .leaf "b")]
        (fun _ => 7))[1]? = some t ∧
      t.title = "Intro" ∧ t.status = .pending ∧ t.content = "" ∧
      t.id = chapterIdOf "Intro" 7 1) ∧
    ((flattenStructureToTasks [("Intro", .leaf "a"), ("Intro", .leaf "b")]
      (fun _ => 7)).map (fun t => t.id)).Nodup := by
  obtain ⟨h1, h2, h3⟩ := flatten_yields_ordered_pending_tasks_with_distinct_ids
    [("Intro", .leaf "a"), ("Intro", .leaf "b")] (fun _ => 7)
  exact ⟨h1, h2 1 ("Intro", .leaf "b") (by decide), h3⟩

/-! ### Losslessness of the nested-node serialization -/

/-- Rebuilding a string from its own character data. -/
theorem string_mk_data (s : String) : (⟨s.data⟩ : String) = s := by
  cases s
  rfl

/-- The escape of one character is never empty. -/
theorem escapeChar_length_pos (c : Char) : 1 ≤ (escapeChar c).length := by
  unfold escapeChar
  split_ifs <;> simp

/-- One decoding step of the string-literal reader across one escaped
character. -/
theorem parseStringBody_cons (c : Char) (r : List Char) (f : Nat) :
    parseStringBody (f + 1) (escapeChar c ++ r) =
      (parseStringBody f r).map (fun p => (c :: p.1, p.2)) := by
  by_cases h1 : c = '"'
  · subst h1
    simp [parseStringBody, escapeChar, unescapeChar]
  by_cases h2 : c = '\\'
  · subst h2
    simp [parseStringBody, escapeChar, unescapeChar]
  by_cases h3 : c = '\x08'
  · subst h3
    simp [parseStringBody, escapeChar, unescapeChar]
  by_cases h4 : c = '\x0c'
  · subst h4
    simp [parseStringBody, escapeChar, unescapeChar]
  by_cases h5 : c = '\n'
  · subst h5
    simp [parseStringBody, escapeChar, unescapeChar]
  by_cases h6 : c = '\r'
  · subst h6
    simp [parseStringBody, escapeChar, unescapeChar]
  by_cases h7 : c = '\t'
  · subst h7
    simp [parseStringBody, escapeChar, unescapeChar]
  by_cases h8 : c.toNat < 32
  · rw [show escapeChar c =
        ['\\', 'u', '0', '0', Nat.digitChar (c.toNat / 16), Nat.digitChar (c.toNat % 16)] from by
      unfold escapeChar
      simp [h1, h2, h3, h4, h5, h6, h7, h8]]
    have hall : ∀ m, m < 16 → hexVal (Nat.digitChar m) = some m := by decide
    have hv1 : hexVal (Nat.digitChar (c.toNat / 16)) = some (c.toNat / 16) :=
      hall _ (by omega)
    have hv2 : hexVal (Nat.digitChar (c.toNat % 16)) = some (c.toNat % 16) :=
      hall _ (by omega)
    simp only [List.cons_append, List.nil_append, parseStringBody, reduceIte, hv1, hv2]
    have harith : ((0 * 16 + 0) * 16 + c.toNat / 16) * 16 + c.toNat % 16 = c.toNat := by
      omega
    rw [show hexVal '0' = some 0 from by decide] at *
    simp only [hv1, hv2]
    rw [harith, Char.ofNat_toNat]
    rw [if_neg (by decide)]
  · rw [show escapeChar c = [c] from by
      unfold escapeChar
      simp [h1, h2, h3, h4, h5, h6, h7, h8]]
    simp only [List.cons_append, List.nil_append, parseStringBody]
    rw [if_neg h1, if_neg h2, if_neg h8]

/-- The string-literal reader inverts the `JSON.stringify` escaper:
reading the escaped body followed by a closing quote recovers the
original characters and the remainder. -/
theorem parseStringBody_escapeList (l : List Char) :
    ∀ (rest : List Char) (fuel : Nat), (escapeList l).length < fuel →
      parseStringBody fuel (escapeList l ++ '"' :: rest) = some (l, rest) := by
  induction l with
  | nil =>
    intro rest fuel hf
    obtain ⟨f, rfl⟩ : ∃ f, fuel = f + 1 := ⟨fuel - 1, by omega⟩
    rfl
  | cons c cs ih =>
    intro rest fuel hf
    have hesc : escapeList (c :: cs) = escapeChar c ++ escapeList cs := by
      simp [escapeList]
    rw [hesc] at hf ⊢
    obtain ⟨f, rfl⟩ : ∃ f, fuel = f + 1 := ⟨fuel - 1, by omega⟩
    rw [List.append_assoc, parseStringBody_cons]
    have hlen : (escapeList cs).length < f := by
      have := escapeChar_length_pos c
      rw [List.length_append] at hf
      omega
    rw [ih rest f hlen]
    rfl

/-- Character data of one serialized record line, fully right
associated. -/
theorem entryLine_data (k v : String) :
    (entryLine (k, v)).data =
      ' ' :: ' ' :: '"' :: (escapeList k.data ++ '"' :: ':' :: ' ' :: '"' ::
        (escapeList v.data ++ ['"'])) := by
  simp [entryLine, quoteJsonString, escapeString, escapeList, String.data_append]

/-- The go-loop of `String.intercalate` distributes over a prefix of the
accumulator. -/
theorem intercalate_go_append (sep : String) (l : List String) :
    ∀ a b : String, String.intercalate.go (a ++ b) sep l =
      a ++ String.intercalate.go b sep l := by
  induction l with
  | nil =>
    intro a b
    rfl
  | cons c cs ih =>
    intro a b
    show String.intercalate.go (a ++ b ++ sep ++ c) sep cs = _
    rw [String.append_assoc a b sep, String.append_assoc a (b ++ sep) c,
        ih a (b ++ sep ++ c)]
    rfl

/-- Unfolding of `String.intercalate` over a two-or-more element list. -/
theorem intercalate_cons_cons (sep a b : String) (l : List String) :
    String.intercalate sep (a :: b :: l) =
      a ++ sep ++ String.intercalate sep (b :: l) := by
  show String.intercalate.go a sep (b :: l) = _
  show String.intercalate.go (a ++ sep ++ b) sep l = _
  rw [String.append_assoc, intercalate_go_append sep l a (sep ++ b)]
  show a ++ String.intercalate.go (sep ++ b) sep l = _
  rw [intercalate_go_append sep l sep b]
  rw [← String.append_assoc]
  rfl

/-- One line step of the record deserializer: reading a serialized line
followed by anything decodes the line's key and value and continues with
the remainder. -/
theorem parseRecordLines_cons (k v : String) (tail : List Char) (f : Nat) :
    parseRecordLines (f + 1) ((entryLine (k, v)).data ++ tail) =
      (match tail with
       | ',' :: '\n' :: r4 => (parseRecordLines f r4).map (fun es => (k, v) :: es)
       | '\n' :: '}' :: [] => some [(k, v)]
       | _ => none) := by
  rw [entryLine_data]
  simp only [List.cons_append, List.append_assoc]
  show parseRecordLines (f + 1)
    (' ' :: ' ' :: '"' :: (escapeList k.data ++ ('"' :: ':' :: ' ' :: '"' ::
      (escapeList v.data ++ ('"' :: tail))))) = _
  simp only [parseRecordLines]
  rw [show ('"' :: ':' :: ' ' :: '"' :: (escapeList v.data ++ ('"' :: tail))) =
    '"' :: (':' :: ' ' :: '"' :: (escapeList v.data ++ ('"' :: tail))) from rfl]
  rw [parseStringBody_escapeList k.data _ _ (by simp; omega)]
  simp only []
  rw [parseStringBody_escapeList v.data _ _ (by simp; omega)]

/-- The serialized lines are longer than the number of entries (fuel
adequacy for the deserializer). -/
theorem intercalate_lines_length (e : String × String) (es : List (String × String)) :
    es.length < ((String.intercalate ",\n" ((e :: es).map entryLine)).data).length := by
  induction es generalizing e with
  | nil =>
    obtain ⟨k, v⟩ := e
    show 0 < (entryLine (k, v)).data.length
    rw [entryLine_data]
    simp
  | cons e2 es2 ih =>
    obtain ⟨k, v⟩ := e
    simp only [List.map_cons]
    rw [intercalate_cons_cons, String.data_append, String.data_append]
    have h := ih e2
    have hsep : (",\n".data).length = 2 := rfl
    simp only [List.length_append, List.length_cons]
    simp only [List.map_cons] at h
    omega

/-- The record deserializer inverts the serializer line by line. -/
theorem parseRecordLines_roundtrip (es : List (String × String)) (e : String × String) :
    ∀ f, es.length < f →
      parseRecordLines f
        ((String.intercalate ",\n" ((e :: es).map entryLine)).data ++ ['\n', '}']) =
        some (e :: es) := by
  induction es generalizing e with
  | nil =>
    intro f hf
    obtain ⟨fp, rfl⟩ : ∃ fp, f = fp + 1 := ⟨f - 1, by omega⟩
    obtain ⟨k, v⟩ := e
    show parseRecordLines (fp + 1) ((entryLine (k, v)).data ++ ['\n', '}']) = _
    rw [parseRecordLines_cons]
    rfl
  | cons e2 es2 ih =>
    intro f hf
    obtain ⟨fp, rfl⟩ : ∃ fp, f = fp + 1 := ⟨f - 1, by omega⟩
    obtain ⟨k, v⟩ := e
    simp only [List.map_cons]
    rw [intercalate_cons_cons, String.data_append, String.data_append,
        show (",\n").data = [',', '\n'] from rfl]
    simp only [List.append_assoc, List.cons_append, List.nil_append]
    rw [parseRecordLines_cons]
    show (parseRecordLines fp
      ((String.intercalate ",\n" ((e2 :: es2).map entryLine)).data ++ ['\n', '}'])).map
        (fun es => (k, v) :: es) = _
    rw [ih e2 fp (by simp at hf ⊢; omega)]
    rfl

/-- Unfolding of the record deserializer on an input of at least two
characters. -/
theorem parseRecordObject_data (s : String) (c0 c : Char) (r : List Char)
    (h : s.data = c0 :: c :: r) :
    parseRecordObject s =
      if c0 = '{' then
        if c = '}' then (if r = [] then some [] else none)
        else if c = '\n' then parseRecordLines (r.length + 1) r
        else none
      else none := by
  unfold parseRecordObject
  rw [h]

/-- The nested-node serializer is lossless: the explicit deserializer
recovers exactly the original entries from the serialized text. -/
theorem parseRecordObject_jsonStringifyRecord (entries : List (String × String)) :
    parseRecordObject (jsonStringifyRecord entries) = some entries := by
  cases entries with
  | nil => rfl
  | cons e es =>
    have hser : jsonStringifyRecord (e :: es) =
        "\x7b\n" ++ String.intercalate ",\n" ((e :: es).map entryLine) ++ "\n\x7d" := rfl
    rw [hser]
    have hdata : ("\x7b\n" ++ String.intercalate ",\n" ((e :: es).map entryLine) ++ "\n\x7d").data =
        '{' :: '\n' ::
          ((String.intercalate ",\n" ((e :: es).map entryLine)).data ++ ['\n', '}']) := by
      simp [String.data_append]
    rw [parseRecordObject_data _ _ _ _ hdata]
    rw [if_pos rfl, if_neg (by decide), if_pos rfl]
    refine parseRecordLines_roundtrip es e _ ?_
    have := intercalate_lines_length e es
    simp only [List.length_append]
    omega

/-- C8: for a leaf-valued entry, the task's outline fragment is the leaf
string verbatim; for a node-valued entry it is the serialization of the
node by `jsonStringifyRecord` — a function of the node, hence the same
structure always serializes to the same string — and deserializing that
fragment reproduces a structure equal to the original node. -/
theorem outlineFragment_leaf_verbatim_node_lossless
    (st : BookStructure) (nows : Nat → Nat) (i : Nat) :
    (∀ k s, st[i]? = some (k, .leaf s) →
      ∃ t, (flattenStructureToTasks st nows)[i]? = some t ∧ t.description = s) ∧
    (∀ k o, st[i]? = some (k, .node o) →
      ∃ t, (flattenStructureToTasks st nows)[i]? = some t ∧
        t.description = jsonStringifyRecord o ∧
        parseRecordObject t.description = some o) := by
  constructor
  · intro k s hkv
    refine ⟨mkChapterTask k (.leaf s) (nows i) i, ?_, rfl⟩
    rw [flattenStructureToTasks, flattenGo_getElem?, hkv]
    simp
  · intro k o hkv
    refine ⟨mkChapterTask k (.node o) (nows i) i, ?_, rfl,
      parseRecordObject_jsonStringifyRecord o⟩
    rw [flattenStructureToTasks, flattenGo_getElem?, hkv]
    simp

/-- Witness: the fragment theorem applied to the spec's concrete example
outline, once at the leaf entry and once at the node entry. -/
theorem outlineFragment_leaf_verbatim_node_lossless_witness :
    (∃ t, (flattenStructureToTasks
        [("Ch1", .leaf "desc1"), ("Ch2", .node [("A", "a"), ("B", "b")])]
        (fun _ => 3))[0]? = some t ∧ t.description = "desc1") ∧
    (∃ t, (flattenStructureToTasks
        [("Ch1", .leaf "desc1"), ("Ch2", .node [("A", "a"), ("B", "b")])]
        (fun _ => 3))[1]? = some t ∧
      t.description = jsonStringifyRecord [("A", "a"), ("B", "b")] ∧
      parseRecordObject t.description = some [("A", "a"), ("B", "b")]) := by
  constructor
  · exact (outlineFragment_leaf_verbatim_node_lossless
      [("Ch1", .leaf "desc1"), ("Ch2", .node [("A", "a"), ("B", "b")])]
      (fun _ => 3) 0).1 "Ch1" "desc1" (by decide)
  · exact (outlineFragment_leaf_verbatim_node_lossless
      [("Ch1", .leaf "desc1"), ("Ch2", .node [("A", "a"), ("B", "b")])]
      (fun _ => 3) 1).2 "Ch2" [("A", "a"), ("B", "b")] (by decide)

/-! ### List and task-update toolkit -/

/-- In a duplicate-free list, entries at distinct positions differ. -/
theorem nodup_getElem?_ne {α} [DecidableEq α] {l : List α} (h : l.Nodup) {i j : Nat}
    (hij : i ≠ j) {x y : α} (hx : l[i]? = some x) (hy : l[j]? = some y) : x ≠ y := by
  intro hEq
  have hi : i < l.length := (List.getElem?_eq_some_iff.mp hx).1
  exact hij (List.getElem?_inj hi h (by rw [hx, hy, hEq]))

/-- Setting a position to the value it already holds changes nothing. -/
theorem set_getElem?_self {α} {l : List α} {i : Nat} {a : α} (h : l[i]? = some a) :
    l.set i a = l := by
  apply List.ext_getElem?
  intro n
  by_cases hn : n = i
  · subst hn
    rw [List.getElem?_set_self', h]
    rfl
  · exact List.getElem?_set_ne (fun hEq => hn hEq.symm)

/-- Setting a non-satisfying position to a satisfying value raises the
count by one. -/
theorem countP_set_flip_up {α} (p : α → Bool) :
    ∀ (l : List α) (i : Nat) (a b : α), l[i]? = some b → p b = false → p a = true →
      (l.set i a).countP p = l.countP p + 1 := by
  intro l
  induction l with
  | nil =>
    intro i a b h _ _
    simp at h
  | cons c cs ih =>
    intro i a b h hb ha
    cases i with
    | zero =>
      simp only [List.getElem?_cons_zero, Option.some_inj] at h
      subst h
      simp [List.set_cons_zero, List.countP_cons, hb, ha]
    | succ j =>
      simp only [List.getElem?_cons_succ] at h
      simp only [List.set_cons_succ, List.countP_cons]
      rw [ih j a b h hb ha]
      omega

/-- Setting a satisfying position to a non-satisfying value lowers the
count by one. -/
theorem countP_set_flip_down {α} (p : α → Bool) :
    ∀ (l : List α) (i : Nat) (a b : α), l[i]? = some b → p b = true → p a = false →
      (l.set i a).countP p + 1 = l.countP p := by
  intro l
  induction l with
  | nil =>
    intro i a b h _ _
    simp at h
  | cons c cs ih =>
    intro i a b h hb ha
    cases i with
    | zero =>
      simp only [List.getElem?_cons_zero, Option.some_inj] at h
      subst h
      simp [List.set_cons_zero, List.countP_cons, hb, ha]
    | succ j =>
      simp only [List.getElem?_cons_succ] at h
      simp only [List.set_cons_succ, List.countP_cons]
      rw [← ih j a b h hb ha]
      omega

/-- `updateTask` keeps the list length. -/
theorem updateTask_length (tasks : List ChapterTask) (taskId : String)
    (f : ChapterTask → ChapterTask) :
    (updateTask tasks taskId f).length = tasks.length := by
  simp [updateTask]

/-- When ids are duplicate-free, updating by the id of the element at
`idx` is exactly a `set` at `idx`. -/
theorem updateTask_eq_set {tasks : List ChapterTask} {idx : Nat} {t : ChapterTask}
    {taskId : String} (hnd : (tasks.map (fun u => u.id)).Nodup)
    (hidx : tasks[idx]? = some t) (hid : t.id = taskId)
    (f : ChapterTask → ChapterTask) :
    updateTask tasks taskId f = tasks.set idx (f t) := by
  apply List.ext_getElem?
  intro n
  by_cases hn : n = idx
  · subst hn
    rw [updateTask, List.getElem?_map, hidx, List.getElem?_set_self', hidx]
    simp [hid]
  · rw [updateTask, List.getElem?_map]
    rw [List.getElem?_set_ne (fun hEq => hn hEq.symm)]
    cases hu : tasks[n]? with
    | none => rfl
    | some u =>
      have hne : u.id ≠ t.id := by
        refine nodup_getElem?_ne hnd hn ?_ ?_
        · rw [List.getElem?_map, hu]
          rfl
        · rw [List.getElem?_map, hidx]
          rfl
      simp only [Option.map_some']
      rw [if_neg (by rw [hid] at hne; exact hne)]

/-- `updateTask` with an id-preserving function keeps the id list. -/
theorem updateTask_map_id (tasks : List ChapterTask) (taskId : String)
    (f : ChapterTask → ChapterTask) (hf : ∀ t, (f t).id = t.id) :
    (updateTask tasks taskId f).map (fun t => t.id) = tasks.map (fun t => t.id) := by
  simp only [updateTask, List.map_map]
  apply List.map_congr_left
  intro t _
  by_cases h : t.id = taskId
  · simp [Function.comp, h, hf t]
  · simp [Function.comp, h]

/-- `updateTask` with a status-preserving function keeps the status
list. -/
theorem updateTask_map_status (tasks : List ChapterTask) (taskId : String)
    (f : ChapterTask → ChapterTask) (hf : ∀ t, (f t).status = t.status) :
    (updateTask tasks taskId f).map (fun t => t.status) = tasks.map (fun t => t.status) := by
  simp only [updateTask, List.map_map]
  apply List.map_congr_left
  intro t _
  by_cases h : t.id = taskId
  · simp [Function.comp, h, hf t]
  · simp [Function.comp, h]

/-- The first-satisfying-element characterization of `find?`. -/
theorem find?_eq_of_first {α} (p : α → Bool) (l : List α) (k : Nat) (a : α)
    (ha : l[k]? = some a) (hp : p a = true)
    (hmin : ∀ j, j < k → ∀ b, l[j]? = some b → p b = false) :
    l.find? p = some a := by
  induction l generalizing k with
  | nil => simp at ha
  | cons c cs ih =>
    cases k with
    | zero =>
      simp only [List.getElem?_cons_zero, Option.some_inj] at ha
      subst ha
      simp [List.find?_cons, hp]
    | succ j =>
      have hc : p c = false := by
        apply hmin 0 (by omega) c
        simp
      simp only [List.getElem?_cons_succ] at ha
      simp [List.find?_cons, hc]
      refine ih j ha ?_
      intro j' hj' b hb
      exact hmin (j' + 1) (by omega) b (by simpa using hb)

/-- `find?` returns a satisfying element occurring at a position before
which nothing satisfies the predicate. -/
theorem find?_some_spec {α} (p : α → Bool) (l : List α) (a : α)
    (h : l.find? p = some a) :
    ∃ k : Nat, l[k]? = some a ∧ p a = true ∧
      ∀ j : Nat, j < k → ∀ b : α, l[j]? = some b → p b = false := by
  induction l with
  | nil => simp at h
  | cons c cs ih =>
    rw [List.find?_cons] at h
    by_cases hc : p c
    · rw [hc] at h
      simp only [cond_true, Option.some_inj] at h
      subst h
      exact ⟨0, by simp, hc, fun j hj b hb => absurd hj (by omega)⟩
    · rw [Bool.of_not_eq_true hc] at h
      simp only [cond_false] at h
      obtain ⟨k, hk, hp, hmin⟩ := ih h
      refine ⟨k + 1, by simpa using hk, hp, ?_⟩
      intro j hj b hb
      cases j with
      | zero =>
        simp only [List.getElem?_cons_zero, Option.some_inj] at hb
        subst hb
        exact Bool.of_not_eq_true hc
      | succ j' =>
        simp only [List.getElem?_cons_succ] at hb
        exact hmin j' (by omega) b hb

/-- `findIdx?` returns a position holding a satisfying element. -/
theorem findIdx?_found {α} (p : α → Bool) (l : List α) :
    ∀ i, l.findIdx? p = some i → ∃ a, l[i]? = some a ∧ p a = true := by
  induction l with
  | nil =>
    intro i h
    simp at h
  | cons c cs ih =>
    intro i h
    rw [List.findIdx?_cons, List.findIdx?_succ] at h
    by_cases hc : p c
    · rw [if_pos hc] at h
      simp only [Option.some_inj] at h
      subst h
      exact ⟨c, by simp, hc⟩
    · rw [if_neg hc] at h
      simp only [Option.map_eq_some'] at h
      obtain ⟨j, hj, rfl⟩ := h
      obtain ⟨a, ha, hp⟩ := ih j hj
      exact ⟨a, by simpa using ha, hp⟩

/-- With duplicate-free ids, looking up the id of the element at `k`
finds exactly position `k`. -/
theorem findIdx?_id_of_nodup {tasks : List ChapterTask}
    (hnd : (tasks.map (fun u => u.id)).Nodup) {k : Nat} {t : ChapterTask}
    (ht : tasks[k]? = some t) :
    tasks.findIdx? (fun u => u.id == t.id) = some k := by
  induction tasks generalizing k with
  | nil => simp at ht
  | cons c cs ih =>
    rw [List.findIdx?_cons, List.findIdx?_succ]
    cases k with
    | zero =>
      simp only [List.getElem?_cons_zero, Option.some_inj] at ht
      subst ht
      simp
    | succ j =>
      simp only [List.getElem?_cons_succ] at ht
      simp only [List.map_cons, List.nodup_cons] at hnd
      have hc : (c.id == t.id) = false := by
        simp only [beq_eq_false_iff_ne, ne_eq]
        intro hEq
        apply hnd.1
        rw [hEq]
        exact List.mem_map_of_mem _ (List.getElem?_mem ht)
      rw [if_neg (by simp [hc] : ¬(c.id == t.id) = true)]
      rw [ih hnd.2 ht]
      rfl

/-- With duplicate-free ids, looking up the element at `k` by its id
finds that element. -/
theorem find?_id_of_nodup {tasks : List ChapterTask}
    (hnd : (tasks.map (fun u => u.id)).Nodup) {k : Nat} {t : ChapterTask}
    (ht : tasks[k]? = some t) :
    tasks.find? (fun u => u.id == t.id) = some t := by
  refine find?_eq_of_first _ tasks k t ht (by simp) ?_
  intro j hj b hb
  have hne : b.id ≠ t.id := by
    refine nodup_getElem?_ne hnd (by omega : j ≠ k) ?_ ?_
    · rw [List.getElem?_map, hb]
      rfl
    · rw [List.getElem?_map, ht]
      rfl
  simpa using hne

/-! ### The streaming accumulator -/

/-- Empty chunk lists deliver nothing. -/
theorem concatFragments_nil : concatFragments [] = "" := rfl

/-- A chunk without a string `text` contributes nothing. -/
theorem concatFragments_none (cs : List (Option String)) :
    concatFragments (none :: cs) = concatFragments cs := by
  simp [concatFragments]

/-- A delivered fragment is prepended to the concatenation. -/
theorem concatFragments_some (txt : String) (cs : List (Option String)) :
    concatFragments (some txt :: cs) = txt ++ concatFragments cs := by
  simp [concatFragments, concatStrings]

/-- Marking does not change the id. -/
theorem genTask_id (t : ChapterTask) (r : String) : (genTask t r).id = t.id := rfl

/-- Running the per-chunk accumulation over a whole chunk list: the
buffer grows by the concatenation of the delivered fragments and the
in-flight task's live content tracks the buffer exactly; nothing else
changes. -/
theorem foldl_applyChunk (chunks : List (Option String)) :
    ∀ (s : AppState) (idx : Nat) (t0 : ChapterTask),
      (s.chapterTasks.map (fun u => u.id)).Nodup →
      s.chapterTasks[idx]? = some (genTask t0 s.generatingRef) →
      chunks.foldl (fun st c => applyChunk st t0.id c) s =
        { s with
          chapterTasks := s.chapterTasks.set idx
            (genTask t0 (s.generatingRef ++ concatFragments chunks)),
          generatingRef := s.generatingRef ++ concatFragments chunks } := by
  induction chunks with
  | nil =>
    intro s idx t0 hnd hidx
    rw [List.foldl_nil, concatFragments_nil]
    rw [show s.generatingRef ++ "" = s.generatingRef by simp]
    rw [set_getElem?_self hidx]
  | cons c cs ih =>
    intro s idx t0 hnd hidx
    cases c with
    | none =>
      rw [List.foldl_cons]
      rw [show applyChunk s t0.id none = s from rfl]
      rw [ih s idx t0 hnd hidx, concatFragments_none]
    | some txt =>
      rw [List.foldl_cons]
      rw [show applyChunk s t0.id (some txt) = { s with
        generatingRef := s.generatingRef ++ txt,
        chapterTasks := updateTask s.chapterTasks t0.id
          (fun t => { t with content := s.generatingRef ++ txt }) } from rfl]
      rw [updateTask_eq_set hnd hidx (genTask_id t0 s.generatingRef)]
      have hmap : ((s.chapterTasks.set idx
          (genTask t0 (s.generatingRef ++ txt))).map (fun u => u.id)) =
          s.chapterTasks.map (fun u => u.id) := by
        rw [List.map_set]
        apply set_getElem?_self
        rw [List.getElem?_map, hidx]
        rfl
      have hnd' : (((s.chapterTasks.set idx
          (genTask t0 (s.generatingRef ++ txt)))).map (fun u => u.id)).Nodup := by
        rw [hmap]
        exact hnd
      have hidx' : (s.chapterTasks.set idx (genTask t0 (s.generatingRef ++ txt)))[idx]? =
          some (genTask t0 (s.generatingRef ++ txt)) := by
        rw [List.getElem?_set_self', hidx]
        rfl
      rw [ih _ idx t0 hnd' hidx']
      simp only [List.set_set, concatFragments_some, String.append_assoc]

/-! ### The generation handler, run to completion -/

/-- A successful run of `handleGenerateChapterContent` on the pending
task at `idx`: the task commits to `done` with the trimmed concatenation
of the delivered fragments, the active id and buffer are cleared, and
the emitted request carries the assembled inputs. -/
theorem handle_success
    (s : AppState) (chunks : List (Option String)) {inputs : UserInputs}
    {bs : BookStructure} {idx : Nat} {t0 : ChapterTask}
    (hui : s.userInputs = some inputs) (hbs : s.bookStructure = some bs)
    (hauto : s.isAutoGeneratingChapters = true) (hkey : s.apiKeyMissing = false)
    (hidx : s.chapterTasks[idx]? = some t0) (hpend : t0.status = .pending)
    (hnd : (s.chapterTasks.map (fun u => u.id)).Nodup) :
    handleGenerateChapterContent s t0.id (.success chunks) =
      ({ s with
          chapterTasks := s.chapterTasks.set idx
            (doneTask (genTask t0 (concatFragments chunks))
              (jsTrim (concatFragments chunks))),
          activelyGeneratingChapterId := none,
          generatingRef := "" },
       some (buildChapterRequest inputs bs s.chapterTasks idx t0)) := by
  rw [handleGenerateChapterContent]
  simp only [hui, hbs, hauto, hkey]
  rw [if_neg (by simp)]
  simp only [findIdx?_id_of_nodup hnd hidx, hidx]
  rw [if_neg (by simp [hpend])]
  rw [markGenerating, updateTask_eq_set hnd hidx rfl]
  have hmap1 : ((s.chapterTasks.set idx (genTask t0 "")).map (fun u => u.id)) =
      s.chapterTasks.map (fun u => u.id) := by
    rw [List.map_set]
    apply set_getElem?_self
    rw [List.getElem?_map, hidx]
    rfl
  have hnd1 : (((s.chapterTasks.set idx (genTask t0 ""))).map (fun u => u.id)).Nodup := by
    rw [hmap1]
    exact hnd
  have hidx1 : (s.chapterTasks.set idx (genTask t0 ""))[idx]? = some (genTask t0 "") := by
    rw [List.getElem?_set_self', hidx]
    rfl
  rw [show StreamOutcome.chunks (.success chunks) = chunks from rfl]
  rw [foldl_applyChunk chunks _ idx t0 hnd1 hidx1]
  simp only [List.set_set]
  rw [commitDone]
  have hempty : ("" : String) ++ concatFragments chunks = concatFragments chunks := by
    simp
  rw [hempty]
  have hidx2 : (s.chapterTasks.set idx (genTask t0 (concatFragments chunks)))[idx]? =
      some (genTask t0 (concatFragments chunks)) := by
    rw [List.getElem?_set_self', hidx]
    rfl
  have hnd2 : (((s.chapterTasks.set idx
      (genTask t0 (concatFragments chunks)))).map (fun u => u.id)).Nodup := by
    rw [List.map_set]
    rw [set_getElem?_self (by rw [List.getElem?_map, hidx]; rfl)]
    exact hnd
  rw [updateTask_eq_set hnd2 hidx2 (genTask_id t0 (concatFragments chunks))]
  simp only [List.set_set, hui, hbs, hauto, hkey]
  rfl

/-- A failing run of `handleGenerateChapterContent` on the pending task
at `idx`: the task moves to `error` keeping the trimmed partial content
and the failure message, auto-run is disabled, a workflow error naming
the chapter is surfaced, and the active id and buffer are cleared. -/
theorem handle_failure
    (s : AppState) (chunks : List (Option String)) (msg : String) {inputs : UserInputs}
    {bs : BookStructure} {idx : Nat} {t0 : ChapterTask}
    (hui : s.userInputs = some inputs) (hbs : s.bookStructure = some bs)
    (hauto : s.isAutoGeneratingChapters = true) (hkey : s.apiKeyMissing = false)
    (hidx : s.chapterTasks[idx]? = some t0) (hpend : t0.status = .pending)
    (hnd : (s.chapterTasks.map (fun u => u.id)).Nodup) :
    handleGenerateChapterContent s t0.id (.failure chunks msg) =
      ({ s with
          chapterTasks := s.chapterTasks.set idx
            (errorTask (genTask t0 (concatFragments chunks)) msg
              (jsTrim (concatFragments chunks))),
          error := some ("Error in chapter: " ++ t0.title ++ ". " ++ msg),
          isAutoGeneratingChapters := false,
          activelyGeneratingChapterId := none,
          generatingRef := "" },
       some (buildChapterRequest inputs bs s.chapterTasks idx t0)) := by
  rw [handleGenerateChapterContent]
  simp only [hui, hbs, hauto, hkey]
  rw [if_neg (by simp)]
  simp only [findIdx?_id_of_nodup hnd hidx, hidx]
  rw [if_neg (by simp [hpend])]
  rw [markGenerating, updateTask_eq_set hnd hidx rfl]
  have hmap1 : ((s.chapterTasks.set idx (genTask t0 "")).map (fun u => u.id)) =
      s.chapterTasks.map (fun u => u.id) := by
    rw [List.map_set]
    apply set_getElem?_self
    rw [List.getElem?_map, hidx]
    rfl
  have hnd1 : (((s.chapterTasks.set idx (genTask t0 ""))).map (fun u => u.id)).Nodup := by
    rw [hmap1]
    exact hnd
  have hidx1 : (s.chapterTasks.set idx (genTask t0 ""))[idx]? = some (genTask t0 "") := by
    rw [List.getElem?_set_self', hidx]
    rfl
  rw [show StreamOutcome.chunks (.failure chunks msg) = chunks from rfl]
  rw [foldl_applyChunk chunks _ idx t0 hnd1 hidx1]
  simp only [List.set_set]
  rw [commitError]
  have hempty : ("" : String) ++ concatFragments chunks = concatFragments chunks := by
    simp
  rw [hempty]
  have hidx2 : (s.chapterTasks.set idx (genTask t0 (concatFragments chunks)))[idx]? =
      some (genTask t0 (concatFragments chunks)) := by
    rw [List.getElem?_set_self', hidx]
    rfl
  have hnd2 : (((s.chapterTasks.set idx
      (genTask t0 (concatFragments chunks)))).map (fun u => u.id)).Nodup := by
    rw [List.map_set]
    rw [set_getElem?_self (by rw [List.getElem?_map, hidx]; rfl)]
    exact hnd
  rw [updateTask_eq_set hnd2 hidx2 (genTask_id t0 (concatFragments chunks))]
  simp only [List.set_set, hui, hbs, hauto, hkey]
  rw [find?_id_of_nodup hnd hidx]
  rfl

/-- When auto-run is disabled, or no task carries the requested id, or
the identified task is not `pending` (or the workflow inputs are
absent), the handler is a no-op emitting no request. -/
theorem handle_noop (s : AppState) (taskId : String) (outcome : StreamOutcome)
    (h : s.isAutoGeneratingChapters = false ∨
         s.chapterTasks.findIdx? (fun t => t.id == taskId) = none ∨
         (∀ idx t, s.chapterTasks.findIdx? (fun t => t.id == taskId) = some idx →
            s.chapterTasks[idx]? = some t → t.status ≠ .pending) ∨
         s.userInputs = none ∨ s.bookStructure = none ∨ s.apiKeyMissing = true) :
    handleGenerateChapterContent s taskId outcome = (s, none) := by
  rw [handleGenerateChapterContent]
  cases hui : s.userInputs with
  | none => rfl
  | some inputs =>
    cases hbs : s.bookStructure with
    | none => rfl
    | some bs =>
      by_cases hguard : (!s.isAutoGeneratingChapters || s.apiKeyMissing) = true
      · change (if (!s.isAutoGeneratingChapters || s.apiKeyMissing) = true
            then (s, none) else _) = ((s, none) : AppState × Option ChapterRequest)
        rw [if_pos hguard]
      · change (if (!s.isAutoGeneratingChapters || s.apiKeyMissing) = true
            then (s, none) else _) = ((s, none) : AppState × Option ChapterRequest)
        rw [if_neg hguard]
        cases hfind : s.chapterTasks.findIdx? (fun t => t.id == taskId) with
        | none => rfl
        | some idx =>
          cases hget : s.chapterTasks[idx]? with
          | none => simp only [hget]
          | some t =>
            simp only [hget]
            by_cases hstat : t.status ≠ .pending
            · rw [if_pos hstat]
            · exfalso
              rcases h with h | h | h | h | h | h
              · simp [h] at hguard
              · rw [h] at hfind
                exact absurd hfind (by simp)
              · exact hstat (h idx t hfind hget)
              · rw [h] at hui
                exact absurd hui (by simp)
              · rw [h] at hbs
                exact absurd hbs (by simp)
              · simp [h] at hguard

/-- `set` of a generating version keeps ids duplicate-free. -/
theorem nodup_ids_set_genTask {tasks : List ChapterTask} {k : Nat} {t0 : ChapterTask}
    (hnd : (tasks.map (fun u => u.id)).Nodup) (hk : tasks[k]? = some t0) (r : String) :
    ((tasks.set k (genTask t0 r)).map (fun u => u.id)).Nodup := by
  rw [List.map_set, set_getElem?_self (by rw [List.getElem?_map, hk]; rfl)]
  exact hnd

/-- Reading back the generating version just set. -/
theorem getElem?_set_genTask {tasks : List ChapterTask} {k : Nat} {t0 : ChapterTask}
    (hk : tasks[k]? = some t0) (r : String) :
    (tasks.set k (genTask t0 r))[k]? = some (genTask t0 r) := by
  rw [List.getElem?_set_self', hk]
  rfl

/-! ### Claim: no-op calls (C10) -/

/-- C10: invoking the per-task generation routine with a task id that is
not in the task list, or whose task's status is not `pending`, or while
auto-run is disabled, is a no-op: the state is returned unchanged — in
particular every task's status, content and errorMessage — and no
request is sent to the model client. -/
theorem generate_call_noop_on_invalid_target (s : AppState) (taskId : String)
    (outcome : StreamOutcome)
    (h : s.isAutoGeneratingChapters = false ∨
         (∀ t ∈ s.chapterTasks, t.id ≠ taskId) ∨
         (∀ t ∈ s.chapterTasks, t.id = taskId → t.status ≠ .pending)) :
    handleGenerateChapterContent s taskId outcome = (s, none) := by
  apply handle_noop
  rcases h with h | h | h
  · exact Or.inl h
  · refine Or.inr (Or.inl ?_)
    rw [List.findIdx?_eq_none_iff]
    intro x hx
    simp [h x hx]
  · refine Or.inr (Or.inr (Or.inl ?_))
    intro idx t hfind hget
    obtain ⟨a, ha, hp⟩ := findIdx?_found _ _ idx hfind
    rw [hget] at ha
    have hta : t = a := by injection ha
    subst hta
    apply h t (List.getElem?_mem hget)
    simpa using hp

/-- Witness: the no-op theorem applied with auto-run disabled at a
concrete state. -/
theorem generate_call_noop_on_invalid_target_witness :
    handleGenerateChapterContent (sampleState [sampleTask "a" "T" .pending ""] false) "a"
      (.success []) = (sampleState [sampleTask "a" "T" .pending ""] false, none) :=
  generate_call_noop_on_invalid_target _ "a" _ (Or.inl rfl)

/-! ### Claim: mid-stream failure (C1) -/

/-- C1: when the stream for the pending task at position k fails
mid-stream, afterwards every other task — in particular every `done`
task before k and every `pending` task after k — is exactly as before
(contents, statuses and messages unchanged); task k has status `error`
with content the trim of the fragments accumulated before the failure
(empty when none arrived); and auto-run is disabled. -/
theorem midstream_failure_keeps_rest_and_disables_autorun
    (s : AppState) (chunks : List (Option String)) (msg : String) (k : Nat)
    (t0 : ChapterTask) {inputs : UserInputs} {bs : BookStructure}
    (hui : s.userInputs = some inputs) (hbs : s.bookStructure = some bs)
    (hauto : s.isAutoGeneratingChapters = true) (hkey : s.apiKeyMissing = false)
    (hk : s.chapterTasks[k]? = some t0) (hpend : t0.status = .pending)
    (hnd : (s.chapterTasks.map (fun u => u.id)).Nodup) :
    (handleGenerateChapterContent s t0.id (.failure chunks msg)).1.isAutoGeneratingChapters
        = false ∧
    (∀ j : Nat, j ≠ k →
      (handleGenerateChapterContent s t0.id (.failure chunks msg)).1.chapterTasks[j]? =
        s.chapterTasks[j]?) ∧
    (∃ tk, (handleGenerateChapterContent s t0.id
        (.failure chunks msg)).1.chapterTasks[k]? = some tk ∧
      tk.status = .error ∧ tk.content = jsTrim (concatFragments chunks) ∧
      tk.errorMessage = some msg ∧ tk.id = t0.id ∧ tk.title = t0.title) := by
  rw [handle_failure s chunks msg hui hbs hauto hkey hk hpend hnd]
  refine ⟨rfl, ?_, ?_⟩
  · intro j hj
    exact List.getElem?_set_ne (fun hEq => hj hEq.symm)
  · refine ⟨errorTask (genTask t0 (concatFragments chunks)) msg
      (jsTrim (concatFragments chunks)), ?_, rfl, rfl, rfl, rfl, rfl⟩
    rw [List.getElem?_set_self', hk]
    rfl

/-- Witness: the failure theorem at a concrete two-task state where the
first task is `done` and the second fails after two fragments. -/
theorem midstream_failure_keeps_rest_and_disables_autorun_witness :
    (handleGenerateChapterContent
        (sampleState [sampleTask "a" "T" .done "A", sampleTask "b" "U" .pending ""] true)
        (sampleTask "b" "U" .pending "").id
        (.failure [some "He", none, some "llo "] "boom")).1.isAutoGeneratingChapters
        = false ∧
    (∀ j : Nat, j ≠ 1 →
      (handleGenerateChapterContent
        (sampleState [sampleTask "a" "T" .done "A", sampleTask "b" "U" .pending ""] true)
        (sampleTask "b" "U" .pending "").id
        (.failure [some "He", none, some "llo "] "boom")).1.chapterTasks[j]? =
        (sampleState [sampleTask "a" "T" .done "A", sampleTask "b" "U" .pending ""]
          true).chapterTasks[j]?) ∧
    (∃ tk, (handleGenerateChapterContent
        (sampleState [sampleTask "a" "T" .done "A", sampleTask "b" "U" .pending ""] true)
        (sampleTask "b" "U" .pending "").id
        (.failure [some "He", none, some "llo "] "boom")).1.chapterTasks[1]? = some tk ∧
      tk.status = .error ∧
      tk.content = jsTrim (concatFragments [some "He", none, some "llo "]) ∧
      tk.errorMessage = some "boom" ∧ tk.id = (sampleTask "b" "U" .pending "").id ∧
      tk.title = (sampleTask "b" "U" .pending "").title) :=
  midstream_failure_keeps_rest_and_disables_autorun
    (sampleState [sampleTask "a" "T" .done "A", sampleTask "b" "U" .pending ""] true)
    [some "He", none, some "llo "] "boom" 1 (sampleTask "b" "U" .pending "")
    rfl rfl rfl rfl (by decide) rfl (by decide)

/-! ### Claim: successful stream commit (C3) -/

/-- C3: when the stream for the pending task at position k completes
without failure, task k ends `done` with content the trim of the
concatenation, in delivery order, of all delivered fragments; and after
any prefix of the chunk list, the task's live content is the raw,
untrimmed concatenation of the fragments received so far, with status
`generating`. -/
theorem successful_stream_commits_trimmed_concat
    (s : AppState) (chunks : List (Option String)) (k : Nat)
    (t0 : ChapterTask) {inputs : UserInputs} {bs : BookStructure}
    (hui : s.userInputs = some inputs) (hbs : s.bookStructure = some bs)
    (hauto : s.isAutoGeneratingChapters = true) (hkey : s.apiKeyMissing = false)
    (hk : s.chapterTasks[k]? = some t0) (hpend : t0.status = .pending)
    (hnd : (s.chapterTasks.map (fun u => u.id)).Nodup) :
    (∃ tk, (handleGenerateChapterContent s t0.id
        (.success chunks)).1.chapterTasks[k]? = some tk ∧
      tk.status = .done ∧ tk.content = jsTrim (concatFragments chunks) ∧
      tk.errorMessage = none ∧ tk.id = t0.id) ∧
    (∀ j : Nat,
      ∃ tg, ((chunks.take j).foldl (fun st c => applyChunk st t0.id c)
          (markGenerating s t0.id)).chapterTasks[k]? = some tg ∧
        tg.status = .generating ∧ tg.content = concatFragments (chunks.take j)) := by
  constructor
  · rw [handle_success s chunks hui hbs hauto hkey hk hpend hnd]
    refine ⟨doneTask (genTask t0 (concatFragments chunks))
      (jsTrim (concatFragments chunks)), ?_, rfl, rfl, rfl, rfl⟩
    rw [List.getElem?_set_self', hk]
    rfl
  · intro j
    rw [markGenerating, updateTask_eq_set hnd hk rfl]
    rw [foldl_applyChunk (chunks.take j) _ k t0
      (nodup_ids_set_genTask hnd hk "") (getElem?_set_genTask hk "")]
    refine ⟨genTask t0 ("" ++ concatFragments (chunks.take j)), ?_, rfl, by simp [genTask]⟩
    simp only [List.set_set]
    exact getElem?_set_genTask hk _

/-- Witness: the success theorem at a concrete state, with the
intermediate-content part instantiated after one chunk. -/
theorem successful_stream_commits_trimmed_concat_witness :
    (∃ tk, (handleGenerateChapterContent
        (sampleState [sampleTask "a" "T" .pending ""] true)
        (sampleTask "a" "T" .pending "").id
        (.success [some " Hello", some " world "])).1.chapterTasks[0]? = some tk ∧
      tk.status = .done ∧
      tk.content = jsTrim (concatFragments [some " Hello", some " world "]) ∧
      tk.errorMessage = none ∧ tk.id = (sampleTask "a" "T" .pending "").id) ∧
    (∃ tg, (([some " Hello", some " world "].take 1).foldl
        (fun st c => applyChunk st (sampleTask "a" "T" .pending "").id c)
        (markGenerating (sampleState [sampleTask "a" "T" .pending ""] true)
          (sampleTask "a" "T" .pending "").id)).chapterTasks[0]? = some tg ∧
      tg.status = .generating ∧
      tg.content = concatFragments ([some " Hello", some " world "].take 1)) := by
  obtain ⟨h1, h2⟩ := successful_stream_commits_trimmed_concat
    (sampleState [sampleTask "a" "T" .pending ""] true)
    [some " Hello", some " world "] 0 (sampleTask "a" "T" .pending "")
    rfl rfl rfl rfl (by decide) rfl (by decide)
  exact ⟨h1, h2 1⟩

/-! ### Claim: the preceding-content input (C6) -/

/-- C6 counterexample: with one completed chapter of committed content
`"A"` and title `"T"` before the task being started, the
preceding-content input sent to the model is a framed block containing
`"A"`, not the bare concatenation `"A"` of the committed contents. -/
theorem preceding_content_not_plain_concat :
    ((handleGenerateChapterContent
        (sampleState [sampleTask "a" "T" .done "A", sampleTask "b" "U" .pending ""] true)
        "b" (.success [])).2.map (fun r => r.previouslyGeneratedChaptersContent)) =
      some "Chapter: T\nA\n\n---END OF PREVIOUS CHAPTER---\n\n" ∧
    ("Chapter: T\nA\n\n---END OF PREVIOUS CHAPTER---\n\n" : String) ≠ "A" := by
  constructor
  · rfl
  · decide

/-- C6 amended: for every task being started at position k, the
preceding-content input of its generation request is the concatenation,
in position order, over exactly the `done` tasks before k with
non-empty committed content, of the framing block
`"Chapter: " ++ title ++ "\n" ++ content ++ "\n\n---END OF PREVIOUS CHAPTER---\n\n"`
embedding that task's committed content; tasks at position k or later,
tasks not in status `done`, and `done` tasks with empty content
contribute nothing to it. -/
theorem preceding_content_is_block_concat
    (s : AppState) (outcome : StreamOutcome) (k : Nat)
    (t0 : ChapterTask) {inputs : UserInputs} {bs : BookStructure}
    (hui : s.userInputs = some inputs) (hbs : s.bookStructure = some bs)
    (hauto : s.isAutoGeneratingChapters = true) (hkey : s.apiKeyMissing = false)
    (hk : s.chapterTasks[k]? = some t0) (hpend : t0.status = .pending)
    (hnd : (s.chapterTasks.map (fun u => u.id)).Nodup) :
    (handleGenerateChapterContent s t0.id outcome).2 =
      some (buildChapterRequest inputs bs s.chapterTasks k t0) ∧
    (buildChapterRequest inputs bs s.chapterTasks k t0).previouslyGeneratedChaptersContent =
      String.join (((s.chapterTasks.take k).filter
        (fun t => t.status == .done && t.content != "")).map chapterBlock) := by
  refine ⟨?_, rfl⟩
  cases outcome with
  | success chunks =>
    rw [handle_success s chunks hui hbs hauto hkey hk hpend hnd]
  | failure chunks msg =>
    rw [handle_failure s chunks msg hui hbs hauto hkey hk hpend hnd]

/-- Witness: the amended preceding-content theorem at a concrete state
with one completed and one empty-content completed chapter before the
started task. -/
theorem preceding_content_is_block_concat_witness :
    (handleGenerateChapterContent
        (sampleState [sampleTask "a" "T" .done "A", sampleTask "e" "E" .done "",
          sampleTask "b" "U" .pending ""] true)
        (sampleTask "b" "U" .pending "").id (.success [])).2 =
      some (buildChapterRequest sampleInputs [("Ch1", .leaf "d")]
        [sampleTask "a" "T" .done "A", sampleTask "e" "E" .done "",
          sampleTask "b" "U" .pending ""] 2 (sampleTask "b" "U" .pending "")) ∧
    (buildChapterRequest sampleInputs [("Ch1", .leaf "d")]
        [sampleTask "a" "T" .done "A", sampleTask "e" "E" .done "",
          sampleTask "b" "U" .pending ""] 2
        (sampleTask "b" "U" .pending "")).previouslyGeneratedChaptersContent =
      String.join ((([sampleTask "a" "T" .done "A", sampleTask "e" "E" .done "",
          sampleTask "b" "U" .pending ""].take 2).filter
        (fun t => t.status == .done && t.content != "")).map chapterBlock) :=
  preceding_content_is_block_concat
    (sampleState [sampleTask "a" "T" .done "A", sampleTask "e" "E" .done "",
      sampleTask "b" "U" .pending ""] true)
    (.success []) 2 (sampleTask "b" "U" .pending "")
    rfl rfl rfl rfl (by decide) rfl (by decide)

/-! ### Claim: driver selection (C4) -/

/-- C4: whenever the driver effect is active — chapter phase, auto-run
enabled, no generation in flight, key configured — it starts the
pending task with the lowest position (handing it to the generation
routine); if no pending task exists, it disables auto-run and stops
without changing any task. -/
theorem driver_selects_lowest_pending_or_halts
    (s : AppState) (o : StreamOutcome)
    (hstep : s.currentStep = .GENERATING_CHAPTERS)
    (hauto : s.isAutoGeneratingChapters = true)
    (hactive : s.activelyGeneratingChapterId = none)
    (hkey : s.apiKeyMissing = false) :
    (∀ (k : Nat) (t : ChapterTask), s.chapterTasks[k]? = some t → t.status = .pending →
      (∀ j : Nat, j < k → ∀ u, s.chapterTasks[j]? = some u → u.status ≠ .pending) →
      autoAdvanceStep s o = handleGenerateChapterContent s t.id o) ∧
    ((∀ t ∈ s.chapterTasks, t.status ≠ .pending) →
      autoAdvanceStep s o = ({ s with isAutoGeneratingChapters := false }, none)) := by
  have hguard : (s.currentStep == AppStep.GENERATING_CHAPTERS &&
      s.isAutoGeneratingChapters && jsFalsyId s.activelyGeneratingChapterId &&
      !s.apiKeyMissing) = true := by
    rw [hstep, hauto, hactive, hkey]
    rfl
  constructor
  · intro k t hk hp hmin
    have hmin' : ∀ j : Nat, j < k → ∀ u, s.chapterTasks[j]? = some u →
        (u.status == TaskStatus.pending) = false := by
      intro j hj u hu
      simp [hmin j hj u hu]
    rw [autoAdvanceStep, if_pos hguard]
    simp only [find?_eq_of_first _ s.chapterTasks k t hk (by simp [hp]) hmin']
  · intro hnone
    have hfind : s.chapterTasks.find? (fun t => t.status == TaskStatus.pending) = none := by
      rw [List.find?_eq_none]
      intro x hx
      simp [hnone x hx]
    rw [autoAdvanceStep, if_pos hguard]
    simp only [hfind]

/-- Witness: the selection theorem at a concrete state whose first task
is `done` and second is `pending`, and the halting part at a state with
no pending task. -/
theorem driver_selects_lowest_pending_or_halts_witness :
    (autoAdvanceStep
        (sampleState [sampleTask "a" "T" .done "A", sampleTask "b" "U" .pending ""] true)
        (.success []) =
      handleGenerateChapterContent
        (sampleState [sampleTask "a" "T" .done "A", sampleTask "b" "U" .pending ""] true)
        (sampleTask "b" "U" .pending "").id (.success [])) ∧
    (autoAdvanceStep (sampleState [sampleTask "a" "T" .done "A"] true) (.success []) =
      ({ sampleState [sampleTask "a" "T" .done "A"] true with
          isAutoGeneratingChapters := false }, none)) := by
  constructor
  · exact (driver_selects_lowest_pending_or_halts
      (sampleState [sampleTask "a" "T" .done "A", sampleTask "b" "U" .pending ""] true)
      (.success []) rfl rfl rfl rfl).1 1 (sampleTask "b" "U" .pending "")
      (by decide) rfl (by decide)
  · exact (driver_selects_lowest_pending_or_halts
      (sampleState [sampleTask "a" "T" .done "A"] true)
      (.success []) rfl rfl rfl rfl).2 (by decide)

/-! ### Claim: navigation and re-flattening (C7) -/

/-- C7 counterexample: at an outline-review state whose task list is
non-empty and not entirely `pending` (one task is `done`), the forward
transition still replaces the task list — the existing tasks and their
progress are not preserved. -/
theorem proceed_discards_nonpending_tasks :
    ((handleProceedToChapterGeneration
        { sampleState [sampleTask "a" "T" .done "A"] false with
            currentStep := .OUTLINE_REVIEW }
        (fun _ => 5)).chapterTasks ≠
      ({ sampleState [sampleTask "a" "T" .done "A"] false with
            currentStep := .OUTLINE_REVIEW } : AppState).chapterTasks) ∧
    (({ sampleState [sampleTask "a" "T" .done "A"] false with
          currentStep := .OUTLINE_REVIEW } : AppState).chapterTasks ≠ []) ∧
    ¬(∀ t ∈ ({ sampleState [sampleTask "a" "T" .done "A"] false with
          currentStep := .OUTLINE_REVIEW } : AppState).chapterTasks,
        t.status = .pending) := by
  refine ⟨fun hEq => ?_, by decide, by decide⟩
  have h0 : [TaskStatus.pending] = [TaskStatus.done] :=
    congrArg (fun l => l.map (fun t => t.status)) hEq
  exact absurd h0 (by decide)

/-- C7 amended: the forward transition into the chapter-generation phase
always replaces the task list with a freshly flattened one whenever an
outline is present; only the background re-flatten effect is guarded by
the empty-or-all-pending condition, so an in-progress task list survives
navigating back to outline review (and staying in the chapter phase),
but is discarded when the user proceeds forward again. -/
theorem forward_transition_always_reflattens (s : AppState) (nows : Nat → Nat) :
    (∀ bs, s.bookStructure = some bs →
      handleProceedToChapterGeneration s nows =
        { s with chapterTasks := flattenStructureToTasks bs nows,
                 currentStep := .GENERATING_CHAPTERS, error := none }) ∧
    (s.currentStep = .OUTLINE_REVIEW → s.chapterTasks ≠ [] →
      ¬(∀ t ∈ s.chapterTasks, t.status = .pending) →
      reflattenEffect s nows = s) ∧
    (s.currentStep = .GENERATING_CHAPTERS → s.chapterTasks ≠ [] →
      reflattenEffect s nows = s) := by
  refine ⟨?_, ?_, ?_⟩
  · intro bs hbs
    rw [handleProceedToChapterGeneration]
    simp only [hbs]
  · intro hstep hne hnp
    rw [reflattenEffect]
    cases hbs : s.bookStructure with
    | none => rfl
    | some bs =>
      simp only []
      rw [if_pos (by rw [hstep]; rfl)]
      rw [if_neg ?hcond]
      case hcond =>
        have hempty : s.chapterTasks.isEmpty = false := by
          cases hcl : s.chapterTasks with
          | nil => exact absurd hcl hne
          | cons a l => rfl
        have hall : s.chapterTasks.all (fun t => t.status == TaskStatus.pending) = false := by
          rcases hb : s.chapterTasks.all (fun t => t.status == TaskStatus.pending) with _ | _
          · rfl
          · exfalso
            apply hnp
            intro t ht
            have := List.all_eq_true.mp hb t ht
            simpa using this
        rw [hempty, hall, hstep]
        simp
  · intro hstep hne
    rw [reflattenEffect]
    cases hbs : s.bookStructure with
    | none => rfl
    | some bs =>
      simp only []
      rw [if_pos (by rw [hstep]; rfl)]
      rw [if_neg ?hcond2]
      case hcond2 =>
        have hempty : s.chapterTasks.isEmpty = false := by
          cases hcl : s.chapterTasks with
          | nil => exact absurd hcl hne
          | cons a l => rfl
        rw [hempty, hstep]
        simp

/-- Witness: the amended navigation theorem at a concrete state with a
`done` task, instantiating the proceed part and the back-navigation
preservation part. -/
theorem forward_transition_always_reflattens_witness :
    (handleProceedToChapterGeneration
        { sampleState [sampleTask "a" "T" .done "A"] false with
            currentStep := .OUTLINE_REVIEW } (fun _ => 5) =
      { { sampleState [sampleTask "a" "T" .done "A"] false with
            currentStep := .OUTLINE_REVIEW } with
          chapterTasks := flattenStructureToTasks [("Ch1", .leaf "d")] (fun _ => 5),
          currentStep := .GENERATING_CHAPTERS, error := none }) ∧
    (reflattenEffect
        { sampleState [sampleTask "a" "T" .done "A"] false with
            currentStep := .OUTLINE_REVIEW } (fun _ => 5) =
      { sampleState [sampleTask "a" "T" .done "A"] false with
          currentStep := .OUTLINE_REVIEW }) := by
  obtain ⟨h1, h2, _⟩ := forward_transition_always_reflattens
    { sampleState [sampleTask "a" "T" .done "A"] false with
        currentStep := .OUTLINE_REVIEW } (fun _ => 5)
  exact ⟨h1 [("Ch1", .leaf "d")] rfl, h2 rfl (by decide) (by decide)⟩

/-! ### Driver-run invariants (support for C5) -/

/-- Setting a non-satisfying position to a non-satisfying value keeps
the count. -/
theorem countP_set_preserve {α} (p : α → Bool) :
    ∀ (l : List α) (i : Nat) (a b : α), l[i]? = some b → p b = false → p a = false →
      (l.set i a).countP p = l.countP p := by
  intro l
  induction l with
  | nil =>
    intro i a b h _ _
    simp at h
  | cons c cs ih =>
    intro i a b h hb ha
    cases i with
    | zero =>
      simp only [List.getElem?_cons_zero, Option.some_inj] at h
      subst h
      simp [List.set_cons_zero, List.countP_cons, hb, ha]
    | succ j =>
      simp only [List.getElem?_cons_succ] at h
      simp only [List.set_cons_succ, List.countP_cons]
      rw [ih j a b h hb ha]

/-- Every element of a `scanl` is the fold of a prefix. -/
theorem scanl_mem_foldl {α β} (f : β → α → β) :
    ∀ (l : List α) (b x : β), x ∈ l.scanl f b →
      ∃ pre suf, l = pre ++ suf ∧ x = pre.foldl f b := by
  intro l
  induction l with
  | nil =>
    intro b x hx
    simp [List.scanl] at hx
    exact ⟨[], [], rfl, by simp [hx]⟩
  | cons a l ih =>
    intro b x hx
    rw [List.scanl_cons] at hx
    rcases List.mem_cons.mp hx with h | h
    · exact ⟨[], a :: l, rfl, by simp [h]⟩
    · obtain ⟨pre, suf, hl, hfold⟩ := ih (f b a) x h
      exact ⟨a :: pre, suf, by rw [List.cons_append, hl], by simp [hfold]⟩

/-- The task list after the full mark-stream-commit pipeline of a
successful call. -/
theorem pipeline_success_tasks (s : AppState) (chunks : List (Option String))
    {idx : Nat} {t0 : ChapterTask}
    (hnd : (s.chapterTasks.map (fun u => u.id)).Nodup)
    (hget : s.chapterTasks[idx]? = some t0) :
    (commitDone (chunks.foldl (fun st c => applyChunk st t0.id c)
        (markGenerating s t0.id)) t0.id).chapterTasks =
      s.chapterTasks.set idx
        (doneTask (genTask t0 (concatFragments chunks))
          (jsTrim (concatFragments chunks))) := by
  rw [markGenerating, updateTask_eq_set hnd hget rfl]
  have hmap1 : ((s.chapterTasks.set idx (genTask t0 "")).map (fun u => u.id)) =
      s.chapterTasks.map (fun u => u.id) := by
    rw [List.map_set]
    apply set_getElem?_self
    rw [List.getElem?_map, hget]
    rfl
  have hnd1 : (((s.chapterTasks.set idx (genTask t0 ""))).map (fun u => u.id)).Nodup := by
    rw [hmap1]
    exact hnd
  have hidx1 : (s.chapterTasks.set idx (genTask t0 ""))[idx]? = some (genTask t0 "") := by
    rw [List.getElem?_set_self', hget]
    rfl
  rw [foldl_applyChunk chunks _ idx t0 hnd1 hidx1]
  simp only [List.set_set]
  rw [commitDone]
  have hempty : ("" : String) ++ concatFragments chunks = concatFragments chunks := by
    simp
  rw [hempty]
  have hidx2 : (s.chapterTasks.set idx (genTask t0 (concatFragments chunks)))[idx]? =
      some (genTask t0 (concatFragments chunks)) := by
    rw [List.getElem?_set_self', hget]
    rfl
  have hnd2 : (((s.chapterTasks.set idx
      (genTask t0 (concatFragments chunks)))).map (fun u => u.id)).Nodup := by
    rw [List.map_set]
    rw [set_getElem?_self (by rw [List.getElem?_map, hget]; rfl)]
    exact hnd
  rw [updateTask_eq_set hnd2 hidx2 (genTask_id t0 (concatFragments chunks))]
  simp only [List.set_set]
  rfl

/-- The task list after the full mark-stream-commit pipeline of a
failing call. -/
theorem pipeline_failure_tasks (s : AppState) (chunks : List (Option String)) (msg : String)
    {idx : Nat} {t0 : ChapterTask}
    (hnd : (s.chapterTasks.map (fun u => u.id)).Nodup)
    (hget : s.chapterTasks[idx]? = some t0) :
    (commitError (chunks.foldl (fun st c => applyChunk st t0.id c)
        (markGenerating s t0.id)) t0.id msg s.chapterTasks).chapterTasks =
      s.chapterTasks.set idx
        (errorTask (genTask t0 (concatFragments chunks)) msg
          (jsTrim (concatFragments chunks))) := by
  rw [markGenerating, updateTask_eq_set hnd hget rfl]
  have hmap1 : ((s.chapterTasks.set idx (genTask t0 "")).map (fun u => u.id)) =
      s.chapterTasks.map (fun u => u.id) := by
    rw [List.map_set]
    apply set_getElem?_self
    rw [List.getElem?_map, hget]
    rfl
  have hnd1 : (((s.chapterTasks.set idx (genTask t0 ""))).map (fun u => u.id)).Nodup := by
    rw [hmap1]
    exact hnd
  have hidx1 : (s.chapterTasks.set idx (genTask t0 ""))[idx]? = some (genTask t0 "") := by
    rw [List.getElem?_set_self', hget]
    rfl
  rw [foldl_applyChunk chunks _ idx t0 hnd1 hidx1]
  simp only [List.set_set]
  rw [commitError]
  have hempty : ("" : String) ++ concatFragments chunks = concatFragments chunks := by
    simp
  rw [hempty]
  have hidx2 : (s.chapterTasks.set idx (genTask t0 (concatFragments chunks)))[idx]? =
      some (genTask t0 (concatFragments chunks)) := by
    rw [List.getElem?_set_self', hget]
    rfl
  have hnd2 : (((s.chapterTasks.set idx
      (genTask t0 (concatFragments chunks)))).map (fun u => u.id)).Nodup := by
    rw [List.map_set]
    rw [set_getElem?_self (by rw [List.getElem?_map, hget]; rfl)]
    exact hnd
  rw [updateTask_eq_set hnd2 hidx2 (genTask_id t0 (concatFragments chunks))]
  simp only [List.set_set]
  rfl

/-- A generation call whose guards fail leaves no trace: the call's
instants are just the entry state. -/
theorem callStates_noop (s : AppState) (taskId : String) (outcome : StreamOutcome)
    (h : s.isAutoGeneratingChapters = false ∨
         s.chapterTasks.findIdx? (fun t => t.id == taskId) = none ∨
         (∀ idx t, s.chapterTasks.findIdx? (fun t => t.id == taskId) = some idx →
            s.chapterTasks[idx]? = some t → t.status ≠ .pending) ∨
         s.userInputs = none ∨ s.bookStructure = none ∨ s.apiKeyMissing = true) :
    callStates s taskId outcome = [s] := by
  rw [callStates]
  cases hui : s.userInputs with
  | none => rfl
  | some inputs =>
    cases hbs : s.bookStructure with
    | none => rfl
    | some bs =>
      by_cases hguard : (!s.isAutoGeneratingChapters || s.apiKeyMissing) = true
      · change (if (!s.isAutoGeneratingChapters || s.apiKeyMissing) = true
            then [s] else _) = [s]
        rw [if_pos hguard]
      · change (if (!s.isAutoGeneratingChapters || s.apiKeyMissing) = true
            then [s] else _) = [s]
        rw [if_neg hguard]
        cases hfind : s.chapterTasks.findIdx? (fun t => t.id == taskId) with
        | none => rfl
        | some idx =>
          cases hget : s.chapterTasks[idx]? with
          | none => simp only [hget]
          | some t =>
            simp only [hget]
            by_cases hstat : t.status ≠ .pending
            · rw [if_pos hstat]
            · exfalso
              rcases h with h | h | h | h | h | h
              · simp [h] at hguard
              · rw [h] at hfind
                exact absurd hfind (by simp)
              · exact hstat (h idx t hfind hget)
              · rw [h] at hui
                exact absurd hui (by simp)
              · rw [h] at hbs
                exact absurd hbs (by simp)
              · simp [h] at hguard

/-- The instants of a call that passes all guards: the entry state, the
running states of the streaming fold, and the handler's final state. -/
theorem callStates_active (s : AppState) (outcome : StreamOutcome)
    {inputs : UserInputs} {bs : BookStructure} {idx : Nat} {t0 : ChapterTask}
    (hui : s.userInputs = some inputs) (hbs : s.bookStructure = some bs)
    (hauto : s.isAutoGeneratingChapters = true) (hkey : s.apiKeyMissing = false)
    (hidx : s.chapterTasks[idx]? = some t0) (hpend : t0.status = .pending)
    (hnd : (s.chapterTasks.map (fun u => u.id)).Nodup) :
    callStates s t0.id outcome =
      s :: (outcome.chunks.scanl (fun st c => applyChunk st t0.id c)
        (markGenerating s t0.id) ++
        [(handleGenerateChapterContent s t0.id outcome).1]) := by
  rw [callStates, handleGenerateChapterContent]
  simp only [hui, hbs, hauto, hkey]
  rw [if_neg (by simp)]
  rw [if_neg (by simp)]
  simp only [findIdx?_id_of_nodup hnd hidx, hidx]
  rw [if_neg (by simp [hpend])]
  rw [if_neg (by simp [hpend])]

/-- The task list a call leaves behind: unchanged, or one pending task
replaced by a same-id terminal (`done` or `error`) task. -/
theorem handle_fst_shape (s : AppState) (taskId : String) (outcome : StreamOutcome)
    (hnd : (s.chapterTasks.map (fun u => u.id)).Nodup) :
    (handleGenerateChapterContent s taskId outcome).1.chapterTasks = s.chapterTasks ∨
    ∃ (idx : Nat) (t0 u : ChapterTask), s.chapterTasks[idx]? = some t0 ∧
      t0.status = .pending ∧ u.id = t0.id ∧ (u.status = .done ∨ u.status = .error) ∧
      (handleGenerateChapterContent s taskId outcome).1.chapterTasks =
        s.chapterTasks.set idx u := by
  cases hui : s.userInputs with
  | none =>
    left
    rw [handle_noop s taskId outcome (Or.inr (Or.inr (Or.inr (Or.inl hui))))]
  | some inputs =>
  cases hbs : s.bookStructure with
  | none =>
    left
    rw [handle_noop s taskId outcome (Or.inr (Or.inr (Or.inr (Or.inr (Or.inl hbs)))))]
  | some bs =>
  cases hauto : s.isAutoGeneratingChapters with
  | false =>
    left
    rw [handle_noop s taskId outcome (Or.inl hauto)]
  | true =>
  cases hkey : s.apiKeyMissing with
  | true =>
    left
    rw [handle_noop s taskId outcome (Or.inr (Or.inr (Or.inr (Or.inr (Or.inr hkey)))))]
  | false =>
  cases hfind : s.chapterTasks.findIdx? (fun t => t.id == taskId) with
  | none =>
    left
    rw [handle_noop s taskId outcome (Or.inr (Or.inl hfind))]
  | some idx =>
    obtain ⟨t1, hget, hp⟩ := findIdx?_found _ _ idx hfind
    have htid : t1.id = taskId := by simpa using hp
    subst htid
    by_cases hstat : t1.status = .pending
    · cases outcome with
      | success chunks =>
        rw [handle_success s chunks hui hbs hauto hkey hget hstat hnd]
        right
        exact ⟨idx, t1,
          doneTask (genTask t1 (concatFragments chunks)) (jsTrim (concatFragments chunks)),
          hget, hstat, rfl, Or.inl rfl, rfl⟩
      | failure chunks msg =>
        rw [handle_failure s chunks msg hui hbs hauto hkey hget hstat hnd]
        right
        exact ⟨idx, t1,
          errorTask (genTask t1 (concatFragments chunks)) msg
            (jsTrim (concatFragments chunks)),
          hget, hstat, rfl, Or.inr rfl, rfl⟩
    · left
      have hnp : ∀ idx' t', s.chapterTasks.findIdx? (fun t => t.id == t1.id) = some idx' →
          s.chapterTasks[idx']? = some t' → t'.status ≠ TaskStatus.pending := by
        intro idx' t' hfind' hget'
        rw [hfind] at hfind'
        injection hfind' with hEq
        subst hEq
        rw [hget] at hget'
        injection hget' with hEq2
        subst hEq2
        exact hstat
      rw [handle_noop s t1.id outcome (Or.inr (Or.inr (Or.inl hnp)))]

/-- The task list at any instant of a call: unchanged, or one pending
task replaced at its position. -/
theorem callStates_shape (s : AppState) (taskId : String) (outcome : StreamOutcome)
    (hnd : (s.chapterTasks.map (fun u => u.id)).Nodup) :
    ∀ s' ∈ callStates s taskId outcome,
      s'.chapterTasks = s.chapterTasks ∨
      ∃ (idx : Nat) (t0 u : ChapterTask), s.chapterTasks[idx]? = some t0 ∧
        t0.status = .pending ∧ s'.chapterTasks = s.chapterTasks.set idx u := by
  intro s' hs'
  cases hui : s.userInputs with
  | none =>
    rw [callStates_noop s taskId outcome (Or.inr (Or.inr (Or.inr (Or.inl hui))))] at hs'
    have he : s' = s := by simpa using hs'
    subst he
    left
    rfl
  | some inputs =>
  cases hbs : s.bookStructure with
  | none =>
    rw [callStates_noop s taskId outcome
      (Or.inr (Or.inr (Or.inr (Or.inr (Or.inl hbs)))))] at hs'
    have he : s' = s := by simpa using hs'
    subst he
    left
    rfl
  | some bs =>
  cases hauto : s.isAutoGeneratingChapters with
  | false =>
    rw [callStates_noop s taskId outcome (Or.inl hauto)] at hs'
    have he : s' = s := by simpa using hs'
    subst he
    left
    rfl
  | true =>
  cases hkey : s.apiKeyMissing with
  | true =>
    rw [callStates_noop s taskId outcome
      (Or.inr (Or.inr (Or.inr (Or.inr (Or.inr hkey)))))] at hs'
    have he : s' = s := by simpa using hs'
    subst he
    left
    rfl
  | false =>
  cases hfind : s.chapterTasks.findIdx? (fun t => t.id == taskId) with
  | none =>
    rw [callStates_noop s taskId outcome (Or.inr (Or.inl hfind))] at hs'
    have he : s' = s := by simpa using hs'
    subst he
    left
    rfl
  | some idx =>
    obtain ⟨t1, hget, hp⟩ := findIdx?_found _ _ idx hfind
    have htid : t1.id = taskId := by simpa using hp
    subst htid
    by_cases hstat : t1.status = .pending
    · rw [callStates_active s outcome hui hbs hauto hkey hget hstat hnd] at hs'
      rcases List.mem_cons.mp hs' with rfl | hs2
      · left
        rfl
      · rcases List.mem_append.mp hs2 with hsc | hfin
        · obtain ⟨pre, suf, hsplit, hx⟩ := scanl_mem_foldl _ _ _ _ hsc
          right
          refine ⟨idx, t1, genTask t1 ("" ++ concatFragments pre), hget, hstat, ?_⟩
          rw [hx]
          rw [markGenerating, updateTask_eq_set hnd hget rfl]
          have hnd1 : (((s.chapterTasks.set idx (genTask t1 ""))).map
              (fun u => u.id)).Nodup := nodup_ids_set_genTask hnd hget ""
          have hidx1 : (s.chapterTasks.set idx (genTask t1 ""))[idx]? =
              some (genTask t1 "") := getElem?_set_genTask hget ""
          rw [foldl_applyChunk pre _ idx t1 hnd1 hidx1]
          simp only [List.set_set]
        · have hfin' : s' = (handleGenerateChapterContent s t1.id outcome).1 := by
            simpa using hfin
          rcases handle_fst_shape s t1.id outcome hnd with heq |
            ⟨idx2, t2, u, hget2, hpend2, _, _, hset2⟩
          · left
            rw [hfin', heq]
          · right
            exact ⟨idx2, t2, u, hget2, hpend2, by rw [hfin', hset2]⟩
    · have hnp : ∀ idx' t', s.chapterTasks.findIdx? (fun t => t.id == t1.id) = some idx' →
          s.chapterTasks[idx']? = some t' → t'.status ≠ TaskStatus.pending := by
        intro idx' t' hfind' hget'
        rw [hfind] at hfind'
        injection hfind' with hEq
        subst hEq
        rw [hget] at hget'
        injection hget' with hEq2
        subst hEq2
        exact hstat
      rw [callStates_noop s t1.id outcome (Or.inr (Or.inr (Or.inl hnp)))] at hs'
      have he : s' = s := by simpa using hs'
      subst he
      left
      rfl

/-- The task list at any instant of one driver step: unchanged, or one
pending task replaced at its position. -/
theorem stepStates_shape (s : AppState) (o : StreamOutcome)
    (hnd : (s.chapterTasks.map (fun u => u.id)).Nodup) :
    ∀ s' ∈ stepStates s o,
      s'.chapterTasks = s.chapterTasks ∨
      ∃ (idx : Nat) (t0 u : ChapterTask), s.chapterTasks[idx]? = some t0 ∧
        t0.status = .pending ∧ s'.chapterTasks = s.chapterTasks.set idx u := by
  intro s' hs'
  rw [stepStates] at hs'
  by_cases hcond : (s.currentStep == AppStep.GENERATING_CHAPTERS &&
      s.isAutoGeneratingChapters && jsFalsyId s.activelyGeneratingChapterId &&
      !s.apiKeyMissing) = true
  · rw [if_pos hcond] at hs'
    cases hfindp : s.chapterTasks.find? (fun t => t.status == TaskStatus.pending) with
    | none =>
      simp only [hfindp] at hs'
      have he : s' = { s with isAutoGeneratingChapters := false } := by simpa using hs'
      subst he
      left
      rfl
    | some nextTask =>
      simp only [hfindp] at hs'
      exact callStates_shape s nextTask.id o hnd s' hs'
  · rw [if_neg hcond] at hs'
    have he : s' = s := by simpa using hs'
    subst he
    left
    rfl

/-- The task list after one driver step: unchanged, or one pending task
replaced by a same-id terminal task. -/
theorem autoAdvance_fst_shape (s : AppState) (o : StreamOutcome)
    (hnd : (s.chapterTasks.map (fun u => u.id)).Nodup) :
    (autoAdvanceStep s o).1.chapterTasks = s.chapterTasks ∨
    ∃ (idx : Nat) (t0 u : ChapterTask), s.chapterTasks[idx]? = some t0 ∧
      t0.status = .pending ∧ u.id = t0.id ∧ (u.status = .done ∨ u.status = .error) ∧
      (autoAdvanceStep s o).1.chapterTasks = s.chapterTasks.set idx u := by
  rw [autoAdvanceStep]
  by_cases hcond : (s.currentStep == AppStep.GENERATING_CHAPTERS &&
      s.isAutoGeneratingChapters && jsFalsyId s.activelyGeneratingChapterId &&
      !s.apiKeyMissing) = true
  · rw [if_pos hcond]
    cases hfindp : s.chapterTasks.find? (fun t => t.status == TaskStatus.pending) with
    | none =>
      simp only [hfindp]
      left
      trivial
    | some nextTask =>
      simp only [hfindp]
      exact handle_fst_shape s nextTask.id o hnd
  · rw [if_neg hcond]
    left
    trivial

/-- A list shaped as "unchanged or one pending slot rewritten" keeps at
most one task generating (starting from none) and keeps terminal tasks
in place. -/
theorem tasks_shape_spec (tasks tasks2 : List ChapterTask)
    (hz : countGenerating tasks = 0)
    (h : tasks2 = tasks ∨
      ∃ (idx : Nat) (t0 u : ChapterTask), tasks[idx]? = some t0 ∧
        t0.status = .pending ∧ tasks2 = tasks.set idx u) :
    countGenerating tasks2 ≤ 1 ∧
    ∀ (j : Nat) (t : ChapterTask), tasks[j]? = some t →
      (t.status = .done ∨ t.status = .error) → tasks2[j]? = some t := by
  rcases h with rfl | ⟨idx, t0, u, hget, hpend, rfl⟩
  · exact ⟨by omega, fun j t hj _ => hj⟩
  · constructor
    · rw [countGenerating] at hz ⊢
      have hp0 : (t0.status == TaskStatus.generating) = false := by simp [hpend]
      by_cases hpu : (u.status == TaskStatus.generating) = true
      · rw [countP_set_flip_up _ tasks idx u t0 hget hp0 hpu]
        omega
      · rw [countP_set_preserve _ tasks idx u t0 hget hp0 (by simpa using hpu)]
        omega
    · intro j t hj ht
      have hne : idx ≠ j := by
        intro hEq
        subst hEq
        rw [hget] at hj
        injection hj with hj'
        subst hj'
        rcases ht with h1 | h1 <;> rw [hpend] at h1 <;> exact TaskStatus.noConfusion h1
      rw [List.getElem?_set_ne hne]
      exact hj

/-- A list shaped as "unchanged or one pending slot turned terminal with
the same id" keeps duplicate-free ids, keeps the generating count at
zero, and keeps terminal tasks in place. -/
theorem tasks_shape_spec_strong (tasks tasks2 : List ChapterTask)
    (hnd : (tasks.map (fun v => v.id)).Nodup)
    (hz : countGenerating tasks = 0)
    (h : tasks2 = tasks ∨
      ∃ (idx : Nat) (t0 u : ChapterTask), tasks[idx]? = some t0 ∧
        t0.status = .pending ∧ u.id = t0.id ∧ (u.status = .done ∨ u.status = .error) ∧
        tasks2 = tasks.set idx u) :
    ((tasks2.map (fun v => v.id)).Nodup ∧ countGenerating tasks2 = 0) ∧
    ∀ (j : Nat) (t : ChapterTask), tasks[j]? = some t →
      (t.status = .done ∨ t.status = .error) → tasks2[j]? = some t := by
  rcases h with rfl | ⟨idx, t0, u, hget, hpend, huid, hust, rfl⟩
  · exact ⟨⟨hnd, hz⟩, fun j t hj _ => hj⟩
  · refine ⟨⟨?_, ?_⟩, ?_⟩
    · rw [List.map_set]
      rw [set_getElem?_self (by rw [List.getElem?_map, hget, huid]; rfl)]
      exact hnd
    · rw [countGenerating] at hz ⊢
      have hp0 : (t0.status == TaskStatus.generating) = false := by simp [hpend]
      have hpu : (u.status == TaskStatus.generating) = false := by
        rcases hust with h1 | h1 <;> simp [h1]
      rw [countP_set_preserve _ tasks idx u t0 hget hp0 hpu]
      exact hz
    · intro j t hj ht
      have hne : idx ≠ j := by
        intro hEq
        subst hEq
        rw [hget] at hj
        injection hj with hj'
        subst hj'
        rcases ht with h1 | h1 <;> rw [hpend] at h1 <;> exact TaskStatus.noConfusion h1
      rw [List.getElem?_set_ne hne]
      exact hj

/-- Along a whole driver run from a state with no generating task: every
instant has at most one generating task, and the tasks terminal at the
start never change. -/
theorem runStates_inv : ∀ (outs : List StreamOutcome) (s : AppState),
    (s.chapterTasks.map (fun u => u.id)).Nodup →
    countGenerating s.chapterTasks = 0 →
    ∀ s' ∈ runStates s outs,
      countGenerating s'.chapterTasks ≤ 1 ∧
      ∀ (j : Nat) (t : ChapterTask), s.chapterTasks[j]? = some t →
        (t.status = .done ∨ t.status = .error) → s'.chapterTasks[j]? = some t := by
  intro outs
  induction outs with
  | nil =>
    intro s hnd hz s' hs'
    have he : s' = s := by simpa [runStates] using hs'
    subst he
    exact ⟨by omega, fun j t hj _ => hj⟩
  | cons o os ih =>
    intro s hnd hz s' hs'
    simp only [runStates] at hs'
    rcases List.mem_append.mp hs' with h | h
    · exact tasks_shape_spec _ _ hz (stepStates_shape s o hnd s' h)
    · have hspec := tasks_shape_spec_strong _ _ hnd hz (autoAdvance_fst_shape s o hnd)
      have hih := ih (autoAdvanceStep s o).1 hspec.1.1 hspec.1.2 s' h
      refine ⟨hih.1, ?_⟩
      intro j t hj ht
      exact hih.2 j t (hspec.2 j t hj ht) ht

/-- A driver run from a state with duplicate-free ids and no generating
task ends in such a state again. -/
theorem runDriver_inv : ∀ (outs : List StreamOutcome) (s : AppState),
    (s.chapterTasks.map (fun u => u.id)).Nodup →
    countGenerating s.chapterTasks = 0 →
    ((runDriver s outs).chapterTasks.map (fun u => u.id)).Nodup ∧
      countGenerating (runDriver s outs).chapterTasks = 0 := by
  intro outs
  induction outs with
  | nil =>
    intro s hnd hz
    exact ⟨hnd, hz⟩
  | cons o os ih =>
    intro s hnd hz
    have hspec := tasks_shape_spec_strong _ _ hnd hz (autoAdvance_fst_shape s o hnd)
    simp only [runDriver]
    exact ih (autoAdvanceStep s o).1 hspec.1.1 hspec.1.2

/-! ### Claim: mutual exclusion and terminality along driver runs (C5) -/

/-- C5: starting the chapter-phase driver from a task list with
duplicate-free ids and no task in `generating`, at every instant of the
run at most one task has status `generating`; and once a task is `done`
or `error` it is terminal: at every later instant it is still present,
unchanged, at its position — no later driver step selects it again or
changes its status. -/
theorem driver_run_at_most_one_generating_and_terminal_frozen
    (s0 : AppState) (outs1 outs2 : List StreamOutcome)
    (hnd : (s0.chapterTasks.map (fun u => u.id)).Nodup)
    (hz : countGenerating s0.chapterTasks = 0) :
    (∀ s' ∈ runStates s0 (outs1 ++ outs2), countGenerating s'.chapterTasks ≤ 1) ∧
    (∀ (j : Nat) (t : ChapterTask),
      (runDriver s0 outs1).chapterTasks[j]? = some t →
      (t.status = .done ∨ t.status = .error) →
      ∀ s' ∈ runStates (runDriver s0 outs1) outs2, s'.chapterTasks[j]? = some t) := by
  have hmid := runDriver_inv outs1 s0 hnd hz
  constructor
  · intro s' hs'
    exact (runStates_inv (outs1 ++ outs2) s0 hnd hz s' hs').1
  · intro j t hj ht s' hs'
    exact (runStates_inv outs2 (runDriver s0 outs1) hmid.1 hmid.2 s' hs').2 j t hj ht

/-- The C5 invariant checked on a concrete two-task run: one pending
task, one already-done task, one successful stream. -/
theorem driver_run_at_most_one_generating_and_terminal_frozen_witness :
    ((sampleState [sampleTask "a" "A" TaskStatus.pending "",
        sampleTask "b" "B" TaskStatus.done "X"] true).chapterTasks.map
      (fun u => u.id)).Nodup ∧
    countGenerating (sampleState [sampleTask "a" "A" TaskStatus.pending "",
      sampleTask "b" "B" TaskStatus.done "X"] true).chapterTasks = 0 ∧
    ((∀ s' ∈ runStates (sampleState [sampleTask "a" "A" TaskStatus.pending "",
          sampleTask "b" "B" TaskStatus.done "X"] true)
        ([] ++ [StreamOutcome.success [some "hi"]]),
        countGenerating s'.chapterTasks ≤ 1) ∧
     (∀ (j : Nat) (t : ChapterTask),
        (runDriver (sampleState [sampleTask "a" "A" TaskStatus.pending "",
          sampleTask "b" "B" TaskStatus.done "X"] true) []).chapterTasks[j]? = some t →
        (t.status = .done ∨ t.status = .error) →
        ∀ s' ∈ runStates (runDriver (sampleState [sampleTask "a" "A" TaskStatus.pending "",
            sampleTask "b" "B" TaskStatus.done "X"] true) [])
          [StreamOutcome.success [some "hi"]],
          s'.chapterTasks[j]? = some t)) :=
  ⟨by decide, by decide,
    driver_run_at_most_one_generating_and_terminal_frozen
      (sampleState [sampleTask "a" "A" TaskStatus.pending "",
        sampleTask "b" "B" TaskStatus.done "X"] true)
      [] [StreamOutcome.success [some "hi"]] (by decide) (by decide)⟩

/-! ### The outline fence stripper (support for C9) -/

/-- An element failing the predicate survives `dropWhile`. -/
theorem mem_dropWhile_of_mem {α} {p : α → Bool} {d : α} (hd : p d = false) :
    ∀ l : List α, d ∈ l → d ∈ l.dropWhile p := by
  intro l
  induction l with
  | nil =>
    intro h
    simp at h
  | cons c cs ih =>
    intro h
    by_cases hc : p c = true
    · rw [List.dropWhile_cons, if_pos hc]
      rcases List.mem_cons.mp h with rfl | h2
      · rw [hd] at hc
        exact absurd hc (by simp)
      · exact ih h2
    · rw [List.dropWhile_cons, if_neg hc]
      exact h

/-- A list containing a non-whitespace, non-backtick character is never
a valid fence tail. -/
theorem fenceTailOk_contains_false (d : Char) (hd : isJsWhitespace d = false)
    (hdbt : d ≠ backtickChar) (l : List Char) (hmem : d ∈ l) :
    fenceTailOk l = false := by
  rw [fenceTailOk, beq_eq_false_iff_ne]
  intro hEq
  have hmem2 := mem_dropWhile_of_mem hd l hmem
  rw [hEq] at hmem2
  simp at hmem2
  exact hdbt hmem2

/-- The lazy middle group stops exactly at the closing newline when the
body ends in a non-whitespace, non-backtick character. -/
theorem fenceLazySplit_exact (d : Char) (hd : isJsWhitespace d = false)
    (hdbt : d ≠ backtickChar) :
    ∀ l : List Char,
      fenceLazySplit (l ++ d :: '\n' :: backtickChar :: backtickChar :: [backtickChar]) =
        some (l ++ [d]) := by
  intro l
  induction l with
  | nil =>
    rw [List.nil_append, fenceLazySplit]
    rw [if_neg (by simp [fenceTailOk_contains_false d hd hdbt
      (d :: '\n' :: backtickChar :: backtickChar :: [backtickChar]) (by simp)])]
    rw [show fenceLazySplit ('\n' :: backtickChar :: backtickChar :: [backtickChar]) = some []
      from by rw [fenceLazySplit, if_pos (by decide)]]
    rfl
  | cons c cs ih =>
    rw [List.cons_append, fenceLazySplit]
    rw [if_neg (by simp [fenceTailOk_contains_false d hd hdbt
      (c :: (cs ++ d :: '\n' :: backtickChar :: backtickChar :: [backtickChar]))
      (by simp)])]
    rw [ih]
    rfl

/-- `trim` is the identity on a string whose two ends are
non-whitespace. -/
theorem jsTrimList_id (a b : Char) (ha : isJsWhitespace a = false)
    (hb : isJsWhitespace b = false) (m : List Char) :
    jsTrimList (a :: (m ++ [b])) = a :: (m ++ [b]) := by
  rw [jsTrimList]
  rw [List.dropWhile_cons, if_neg (by simp [ha])]
  have hrev : (a :: (m ++ [b])).reverse = b :: (m.reverse ++ [a]) := by simp
  rw [hrev, List.dropWhile_cons, if_neg (by simp [hb])]
  rw [← hrev, List.reverse_reverse]

/-! ### Claim: outline parsing, fence stripping and the error path (C9) -/

/-- C9 counterexample: the outline parser validates JSON well-formedness
only, not outline structure. The text `42` parses as a JSON number —
which is not a structured outline — yet no error is raised: the workflow
advances to outline review with no surfaced error and no decodable
structure. -/
theorem outline_parse_accepts_non_outline_json :
    parseJsonFromText "42" = Except.ok (Json.num "42") ∧
    isBookStructureJson (Json.num "42") = false ∧
    (handleUserInputSubmit (sampleState [] false) sampleInputs
        (Except.ok "42") (Except.ok "T")).currentStep = AppStep.OUTLINE_REVIEW ∧
    (handleUserInputSubmit (sampleState [] false) sampleInputs
        (Except.ok "42") (Except.ok "T")).error = none := by
  exact ⟨rfl, rfl, rfl, rfl⟩

/-- C9 amended: parsing the outline stream's concatenated text trims
whitespace and strips a wrapping code fence (shown here for a
```json-fenced body with non-whitespace ends), after which the text is
parsed as JSON — well-formedness is the only check, with a fixed error
message on failure; and when parsing fails, the workflow returns to the
input-collection step with the message surfaced and loading cleared. -/
theorem outline_fence_stripping_and_error_return
    (s : AppState) (inputs : UserInputs) (titleOutcome : Except String String)
    (hkey : s.apiKeyMissing = false) :
    (∀ (l : List Char) (d : Char), isJsWhitespace d = false → d ≠ backtickChar →
      (∀ c, (l ++ [d]).head? = some c → isJsWhitespace c = false) →
      parseJsonFromText ⟨backtickChar :: backtickChar :: backtickChar ::
          'j' :: 's' :: 'o' :: 'n' :: '\n' ::
          (l ++ d :: '\n' :: backtickChar :: backtickChar :: [backtickChar])⟩ =
        match jsonParse (jsTrim ⟨l ++ [d]⟩) with
        | some j => Except.ok j
        | none => Except.error "Invalid JSON response from AI. The AI returned content that was not valid JSON.") ∧
    (∀ (outlineText msg : String), parseJsonFromText outlineText = Except.error msg →
      (handleUserInputSubmit s inputs (Except.ok outlineText) titleOutcome).currentStep =
        AppStep.USER_INPUT ∧
      (handleUserInputSubmit s inputs (Except.ok outlineText) titleOutcome).error =
        some msg ∧
      (handleUserInputSubmit s inputs (Except.ok outlineText) titleOutcome).isLoading =
        false) := by
  constructor
  · intro l d hd hdbt hfirst
    have hshape : backtickChar :: backtickChar :: backtickChar ::
        'j' :: 's' :: 'o' :: 'n' :: '\n' ::
        (l ++ d :: '\n' :: backtickChar :: backtickChar :: [backtickChar]) =
        backtickChar :: ((backtickChar :: backtickChar :: 'j' :: 's' :: 'o' :: 'n' :: '\n' ::
          (l ++ [d, '\n', backtickChar, backtickChar])) ++ [backtickChar]) := by
      simp
    have htriml : jsTrimList (backtickChar :: backtickChar :: backtickChar ::
        'j' :: 's' :: 'o' :: 'n' :: '\n' ::
        (l ++ d :: '\n' :: backtickChar :: backtickChar :: [backtickChar])) =
        backtickChar :: backtickChar :: backtickChar ::
        'j' :: 's' :: 'o' :: 'n' :: '\n' ::
        (l ++ d :: '\n' :: backtickChar :: backtickChar :: [backtickChar]) := by
      rw [hshape]
      exact jsTrimList_id backtickChar backtickChar (by decide) (by decide) _
    have htrim : jsTrim ⟨backtickChar :: backtickChar :: backtickChar ::
        'j' :: 's' :: 'o' :: 'n' :: '\n' ::
        (l ++ d :: '\n' :: backtickChar :: backtickChar :: [backtickChar])⟩ =
        ⟨backtickChar :: backtickChar :: backtickChar ::
        'j' :: 's' :: 'o' :: 'n' :: '\n' ::
        (l ++ d :: '\n' :: backtickChar :: backtickChar :: [backtickChar])⟩ := by
      rw [jsTrim]
      exact congrArg String.mk htriml
    rw [parseJsonFromText, htrim]
    have hcap : fenceCapture (String.data ⟨backtickChar :: backtickChar :: backtickChar ::
        'j' :: 's' :: 'o' :: 'n' :: '\n' ::
        (l ++ d :: '\n' :: backtickChar :: backtickChar :: [backtickChar])⟩) =
        some (l ++ [d]) := by
      show fenceCapture (backtickChar :: backtickChar :: backtickChar ::
        'j' :: 's' :: 'o' :: 'n' :: '\n' ::
        (l ++ d :: '\n' :: backtickChar :: backtickChar :: [backtickChar])) = some (l ++ [d])
      rw [fenceCapture]
      rw [if_pos ⟨rfl, rfl, rfl⟩]
      have hw : (('j' :: 's' :: 'o' :: 'n' :: '\n' ::
          (l ++ d :: '\n' :: backtickChar :: backtickChar :: [backtickChar])).dropWhile
            isWordChar) =
          '\n' :: (l ++ d :: '\n' :: backtickChar :: backtickChar :: [backtickChar]) := by
        rw [List.dropWhile_cons, if_pos (by decide)]
        rw [List.dropWhile_cons, if_pos (by decide)]
        rw [List.dropWhile_cons, if_pos (by decide)]
        rw [List.dropWhile_cons, if_pos (by decide)]
        rw [List.dropWhile_cons, if_neg (by decide)]
      rw [hw]
      rw [List.dropWhile_cons, if_pos (by decide)]
      have hw3 : (l ++ d :: '\n' :: backtickChar :: backtickChar ::
          [backtickChar]).dropWhile isJsWhitespace =
          l ++ d :: '\n' :: backtickChar :: backtickChar :: [backtickChar] := by
        cases l with
        | nil =>
          simp only [List.nil_append]
          rw [List.dropWhile_cons, if_neg (by simp [hd])]
        | cons c ls =>
          rw [List.cons_append, List.dropWhile_cons, if_neg (by simp [hfirst c rfl])]
      rw [hw3]
      exact fenceLazySplit_exact d hd hdbt l
    simp only [hcap]
    rw [if_pos (by simp)]
  · intro outlineText msg hparse
    refine ⟨?_, ?_, ?_⟩ <;>
      · rw [handleUserInputSubmit, if_neg (by simp [hkey])]
        simp [hparse]

/-- The amended outline-parsing theorem at a concrete configuration: the
fenced body `42`, and the unparsable text left brace. -/
theorem outline_fence_stripping_and_error_return_witness :
    (sampleState [] false).apiKeyMissing = false ∧
    (parseJsonFromText ⟨backtickChar :: backtickChar :: backtickChar ::
        'j' :: 's' :: 'o' :: 'n' :: '\n' ::
        (['4'] ++ '2' :: '\n' :: backtickChar :: backtickChar :: [backtickChar])⟩ =
      match jsonParse (jsTrim ⟨['4'] ++ ['2']⟩) with
      | some j => Except.ok j
      | none => Except.error "Invalid JSON response from AI. The AI returned content that was not valid JSON.") ∧
    ((handleUserInputSubmit (sampleState [] false) sampleInputs
        (Except.ok "\x7b") (Except.ok "T")).currentStep = AppStep.USER_INPUT ∧
     (handleUserInputSubmit (sampleState [] false) sampleInputs
        (Except.ok "\x7b") (Except.ok "T")).error =
       some "Invalid JSON response from AI. The AI returned content that was not valid JSON." ∧
     (handleUserInputSubmit (sampleState [] false) sampleInputs
        (Except.ok "\x7b") (Except.ok "T")).isLoading = false) := by
  have h := outline_fence_stripping_and_error_return (sampleState [] false) sampleInputs
    (Except.ok "T") rfl
  refine ⟨rfl, h.1 ['4'] '2' (by decide) (by decide) ?_, h.2 "\x7b"
    "Invalid JSON response from AI. The AI returned content that was not valid JSON." rfl⟩
  intro c hc
  injection hc with h2
  exact h2 ▸ (by decide)

end KBook
